import Mathlib

/-!
Verification of the poker hand-history engine: the action tagger and
action-line encoder of `action_analyzer.py`, and the log-entry state
machine of `poker_parser.py`.  Definitions transcribe the Python source;
the theorems settle the specification claims about them.
-/

/-- One player action, mirroring the `PlayerAction` dataclass of
`poker_parser.py` and the action dicts consumed by `action_analyzer.py`
(fields `player`, `action`, `amount`, `timestamp`, `stage`). -/
structure PlayerAction where
  player : String
  action : String
  amount : Option Nat := none
  timestamp : Option String := none
  stage : String := "preflop"
deriving DecidableEq, Repr

/-- Showdown record, mirroring the `ShowdownInfo` dataclass. -/
structure ShowdownInfo where
  player : String
  hole_cards : List String
  hand_rank : Option String := none
deriving DecidableEq, Repr

/-- One hand, mirroring the `PokerHand` dataclass (the player-stack dict is
modelled as an association list, in insertion order). -/
structure PokerHand where
  hand_id : String := ""
  hand_number : Nat := 0
  dealer : String := ""
  players : List String := []
  player_stacks : List (String × Nat) := []
  preflop_actions : List PlayerAction := []
  flop_actions : List PlayerAction := []
  turn_actions : List PlayerAction := []
  river_actions : List PlayerAction := []
  flop_cards : Option (List String) := none
  turn_card : Option String := none
  river_card : Option String := none
  showdown : List ShowdownInfo := []
  pot_size : Nat := 0
  winner : Option String := none
  winning_amount : Nat := 0
  timestamp : Option String := none
deriving DecidableEq, Repr

/-- The Python test `action['amount'] and action['amount'] <= 100` in the
limp branch of `_add_action_tags`: `None` and `0` are both falsy in Python,
so only a present, nonzero amount of at most 100 passes. -/
def limpOk : Option Nat → Bool
  | none => false
  | some v => v != 0 && decide (v ≤ 100)

/-- Tag attached to the preflop raise that brings the running raise counter
to `rc`: `open`, `3bet`, `4bet`, then `{rc+1}bet` (the Python f-string
`f'{preflop_raise_count + 1}bet'`), as in `_add_action_tags`. -/
def raiseTagStr (rc : Nat) : String :=
  if rc = 1 then "open"
  else if rc = 2 then "3bet"
  else if rc = 3 then "4bet"
  else toString (rc + 1) ++ "bet"

/-- Preflop pass of `_add_action_tags`.  The Python code first filters the
blind postings out of `preflop_actions` and then enumerates the remaining
actions with index `i`, a running raise counter and the recorded preflop
aggressor; here the full list is walked with the same three accumulators,
and the filtered-out blind actions simply receive an empty tag list (in the
source they are never given a `tags` key, which readers access with
`action.get('tags', [])`).  Only the tag names are modelled; the Python
`ActionTag` also carries a human description and a confidence, which no
claim mentions. -/
def preTagsAux (i rc : Nat) (agg : Option String) :
    List PlayerAction → List (List String) × Option String
  | [] => ([], agg)
  | a :: rest =>
    if a.action = "blind" then
      let r := preTagsAux i rc agg rest
      ([] :: r.1, r.2)
    else if a.action = "raise" then
      let rc2 := rc + 1
      let agg2 := if rc2 = 1 then some a.player else agg
      let r := preTagsAux (i + 1) rc2 agg2 rest
      ([raiseTagStr rc2] :: r.1, r.2)
    else if a.action = "call" ∧ i = 0 then
      let tags := if limpOk a.amount then ["limp"] else []
      let r := preTagsAux (i + 1) rc agg rest
      (tags :: r.1, r.2)
    else
      let r := preTagsAux (i + 1) rc agg rest
      ([] :: r.1, r.2)

/-- Tag lists attached to the preflop actions (position by position). -/
def preflopTags (l : List PlayerAction) : List (List String) :=
  (preTagsAux 0 0 none l).1

/-- The preflop aggressor recorded by the preflop pass of
`_add_action_tags`: the actor of the first raise. -/
def preflopAggressor (l : List PlayerAction) : Option String :=
  (preTagsAux 0 0 none l).2

/-- Membership test for the `check_raise_candidates` dict (keyed by player
name; the stored index is written but never read by the source). -/
def crMem (p : String) (cs : List (String × Nat)) : Bool :=
  cs.any (fun q => q.1 == p)

/-- The dict assignment `check_raise_candidates[player] = i`: overwrite the
entry in place if the key is present, else append it. -/
def crInsert (p : String) (i : Nat) (cs : List (String × Nat)) :
    List (String × Nat) :=
  if cs.any (fun q => q.1 == p) then
    cs.map (fun q => if q.1 == p then (p, i) else q)
  else cs ++ [(p, i)]

/-- The dict deletion `del check_raise_candidates[player]`. -/
def crErase (p : String) (cs : List (String × Nat)) : List (String × Nat) :=
  cs.filter (fun q => q.1 != p)

/-- One step of the postflop stage pass of `_add_action_tags`: given the
preflop aggressor, the position `i` in the stage list and the pending
check-raise candidates, produce the action's tag list and the updated
candidates. -/
def postStep (agg : Option String) (i : Nat) (cs : List (String × Nat))
    (a : PlayerAction) : List String × List (String × Nat) :=
  if a.action = "bet" then
    if i = 0 then
      (if some a.player = agg then ["cbet"] else ["donk"], cs)
    else if crMem a.player cs then (["check-raise"], crErase a.player cs)
    else ([], cs)
  else if a.action = "raise" then
    if crMem a.player cs then (["check-raise"], crErase a.player cs)
    else ([], cs)
  else if a.action = "check" then ([], crInsert a.player i cs)
  else ([], cs)

/-- Postflop stage pass of `_add_action_tags`, walking one stage's action
list and producing each action's tag list. -/
def postTagsAux (agg : Option String) (i : Nat) (cs : List (String × Nat)) :
    List PlayerAction → List (List String)
  | [] => []
  | a :: rest =>
    (postStep agg i cs a).1 :: postTagsAux agg (i + 1) (postStep agg i cs a).2 rest

/-- Candidate map after walking a stage's action list. -/
def candsList (agg : Option String) (i : Nat) (cs : List (String × Nat)) :
    List PlayerAction → List (String × Nat)
  | [] => cs
  | a :: rest => candsList agg (i + 1) (postStep agg i cs a).2 rest

/-- Tag lists for one postflop stage (candidates start empty at index 0). -/
def postTags (agg : Option String) (l : List PlayerAction) : List (List String) :=
  postTagsAux agg 0 [] l

/-- Tag lists attached to the flop actions of a hand: the postflop pass runs
with the aggressor recorded by the preflop pass. -/
def flopTags (h : PokerHand) : List (List String) :=
  postTags (preflopAggressor h.preflop_actions) h.flop_actions

/-- The summary's preflop aggressor from `_analyze_hand_summary`: the player
of the first preflop action that is a raise carrying the `open` tag. -/
def summaryPreflopAggressor (l : List PlayerAction) : Option String :=
  ((l.zip (preflopTags l)).find?
    (fun q => q.1.action == "raise" && q.2.contains "open")).map (fun q => q.1.player)

example : preflopTags
    [{ player := "P1", action := "blind", amount := some 5 },
     { player := "P2", action := "blind", amount := some 10 },
     { player := "P3", action := "raise", amount := some 30 },
     { player := "P1", action := "call", amount := some 30 },
     { player := "P2", action := "fold" }] =
    [[], [], ["open"], [], []] := by decide

example : preflopTags
    [{ player := "P1", action := "blind", amount := some 5 },
     { player := "P2", action := "blind", amount := some 10 },
     { player := "P1", action := "call", amount := some 10 }] =
    [[], [], ["limp"]] := by decide

example : postTags (some "P2")
    [{ player := "P1", action := "check", stage := "flop" },
     { player := "P2", action := "bet", amount := some 50, stage := "flop" },
     { player := "P1", action := "raise", amount := some 150, stage := "flop" }] =
    [[], [], ["check-raise"]] := by decide

/-- The `action_symbols` dict lookup `self.action_symbols.get(kind, '?')` of
`ActionAnalyzer`. -/
def actionSymbol (k : String) : String :=
  if k = "check" then "X"
  else if k = "bet" then "B"
  else if k = "call" then "C"
  else if k = "fold" then "F"
  else if k = "raise" then "R"
  else if k = "all-in" then "A"
  else if k = "blind" then ""
  else "?"

/-- The four stage action lists of a hand, in stage order, as iterated by
`_generate_action_lines`. -/
def stageLists (h : PokerHand) : List (List PlayerAction) :=
  [h.preflop_actions, h.flop_actions, h.turn_actions, h.river_actions]

/-- Whether a player has at least one non-blind action in some stage: exactly
the membership test for the `all_players` set built at the top of
`_generate_action_lines`. -/
def hasNonBlind (h : PokerHand) (p : String) : Bool :=
  (stageLists h).any (fun l => l.any (fun a => a.player == p && a.action != "blind"))

/-- One stage's contribution to a player's action line, as computed inside
the stage loop of `_generate_action_lines`: the player's non-blind actions
of that stage are mapped to symbols, empty symbols are dropped, and a
segment is produced only if both the action list and the symbol list are
non-empty.  (The source's `elif stage_actions:` branch computes a `folded`
flag but ends in `continue` on both paths, so it never contributes a
segment.) -/
def segOf (l : List PlayerAction) (p : String) : Option String :=
  let pas := l.filter (fun a => a.player == p && a.action != "blind")
  if pas.isEmpty then none
  else
    let syms := (pas.map (fun a => actionSymbol a.action)).filter (fun s => s != "")
    if syms.isEmpty then none else some (String.join syms)

/-- A player's action line: the non-empty stage segments joined with `/`
(`'/'.join(line_parts) if line_parts else ''`). -/
def playerLine (h : PokerHand) (p : String) : String :=
  let parts := (stageLists h).filterMap (fun l => segOf l p)
  if parts.isEmpty then "" else String.intercalate "/" parts

/-- The `action_lines` dict returned by `_generate_action_lines`, modelled as
a lookup function: its keys are precisely the members of the `all_players`
set (players with at least one non-blind action), each mapped to their
line. -/
def actionLines (h : PokerHand) (p : String) : Option String :=
  if hasNonBlind h p then some (playerLine h p) else none

/-- The spec's description of a player's line (spec section on the
Action-Line Encoder), written independently of the source's loop: per stage
in fixed order, the player's non-blind actions are mapped one symbol each
and concatenated; empty stage segments are omitted and the rest joined with
slashes. -/
def specSegOf (l : List PlayerAction) (p : String) : String :=
  String.join ((l.filter (fun a => a.player == p && a.action != "blind")).map
    (fun a => actionSymbol a.action))

/-- The spec's description of the whole line, for comparison with
`playerLine`. -/
def specPlayerLine (h : PokerHand) (p : String) : String :=
  String.intercalate "/"
    (((stageLists h).map (fun l => specSegOf l p)).filter (fun s => s != ""))

/-- All players occurring in some stage action list of a hand (blind posters
included) — used to state what the spec claims about the encoder's keys. -/
def appearsInHand (h : PokerHand) (p : String) : Bool :=
  (stageLists h).any (fun l => l.any (fun a => a.player == p))

example :
    actionLines
      { preflop_actions :=
          [{ player := "P1", action := "raise", amount := some 30 },
           { player := "P2", action := "call", amount := some 30 }],
        flop_actions :=
          [{ player := "P2", action := "check", stage := "flop" },
           { player := "P1", action := "bet", amount := some 40, stage := "flop" },
           { player := "P2", action := "fold", stage := "flop" }] } "P2" =
    some "C/XF" := by decide


/-- The verb phrase of an action-like log line, one constructor per pattern
in the `action_patterns` list of `process_entry` (`poker_parser.py`). -/
inductive Verb
  | postsSmallBlind
  | postsBigBlind
  | raisesTo
  | raisesBy
  | betsV
  | callsV
  | goesAllIn
  | foldsV
  | checksV
  | collected
  | uncalledReturn
deriving DecidableEq, Repr

/-- The `action_type` string paired with each pattern in `action_patterns`. -/
def verbKind : Verb → String
  | .postsSmallBlind => "blind"
  | .postsBigBlind => "blind"
  | .raisesTo => "raise"
  | .raisesBy => "raise"
  | .betsV => "bet"
  | .callsV => "call"
  | .goesAllIn => "all-in"
  | .foldsV => "fold"
  | .checksV => "check"
  | .collected => "win"
  | .uncalledReturn => "return"

/-- Whether the pattern's regular expression contains a mandatory integer
group `(\d+)`: every pattern except the `folds` and `checks` ones does, so a
line with such a verb but no integer matches no pattern at all. -/
def verbNeedsAmount : Verb → Bool
  | .foldsV => false
  | .checksV => false
  | _ => true

/-- An action-like raw log line, abstracted to its semantically relevant
content: the quoted player name, the verb phrase it contains, and the
integer literal next to the verb if one is present.  This models the text
fed to the `action_patterns` regex loop of `process_entry`. -/
structure ActionText where
  player : String
  verb : Verb
  amount : Option Nat
deriving DecidableEq, Repr

/-- Result of the first-match loop over `action_patterns`: `none` when no
pattern matches (in particular, when an amount-carrying verb phrase has no
parsable integer, since the `(\d+)` group then fails), otherwise the
`action_type` string and the captured amount (`folds`/`checks` capture no
amount). -/
def matchedAction (t : ActionText) : Option (String × Option Nat) :=
  if verbNeedsAmount t.verb then
    match t.amount with
    | some n => some (verbKind t.verb, some n)
    | none => none
  else some (verbKind t.verb, none)

/-- One classified log entry, one constructor per branch of the
`if`/`elif` chain in `process_entry`.  `handStart` carries the
`hand #(\d+) \(id: (\w+)\).*dealer: "([^"]+)"` captures when that detail
regex matches and `none` when it does not; `showsEntry` similarly carries
the `"([^"]+)" shows a` capture and the parsed hole cards. -/
inductive Entry
  | handStart (info : Option (Nat × String × String))
  | handEnd
  | stacksEntry (sts : List (String × Nat))
  | flopEntry (cards : List String)
  | turnEntry (card : Option String)
  | riverEntry (card : Option String)
  | showsEntry (info : Option (String × List String))
  | actionEntry (t : ActionText)
  | unrecognized
deriving DecidableEq, Repr

/-- Default hand used by total heap lookups (never reachable under the
well-formedness invariant `wfState`). -/
def emptyHand : PokerHand := {}

/-- State of the `PokerLogParser`.  Python's `self.hands` holds references
to mutable `PokerHand` objects that `process_entry` keeps updating in
place, so the state is modelled as a heap: `store` owns every hand object
ever created, `handIdxs` is `self.hands` as a list of references into the
store, and `current` is `self.current_hand`. -/
structure ParserState where
  store : List PokerHand := []
  handIdxs : List Nat := []
  current : Option Nat := none
  currentStage : String := "preflop"
deriving DecidableEq, Repr

/-- Dereference a hand in the heap. -/
def getHand (st : ParserState) (i : Nat) : PokerHand :=
  st.store.getD i emptyHand

/-- Mutate the current hand object in place (a no-op when
`self.current_hand is None`). -/
def modifyCurrent (st : ParserState) (f : PokerHand → PokerHand) : ParserState :=
  match st.current with
  | none => st
  | some i => { st with store := st.store.set i (f (st.store.getD i emptyHand)) }

/-- The fresh `PokerHand(...)` constructed on a matched hand-start entry. -/
def newHand (num : Nat) (hid dealer ts : String) : PokerHand :=
  { hand_id := hid, hand_number := num, dealer := dealer, timestamp := some ts }

/-- Append an action to the list selected by `self.current_stage`. -/
def appendAction (stage : String) (a : PlayerAction) (h : PokerHand) : PokerHand :=
  if stage = "preflop" then { h with preflop_actions := h.preflop_actions ++ [a] }
  else if stage = "flop" then { h with flop_actions := h.flop_actions ++ [a] }
  else if stage = "turn" then { h with turn_actions := h.turn_actions ++ [a] }
  else if stage = "river" then { h with river_actions := h.river_actions ++ [a] }
  else h

/-- `process_entry` of `PokerLogParser`, transcribed branch by branch.  Note
the hand-start branch: the in-progress hand is appended to `self.hands`
first, and a new hand replaces `self.current_hand` only when the detail
regex matches — on a malformed hand-start line `self.current_hand` still
refers to the hand just appended. -/
def processEntry (st : ParserState) (e : Entry) (ts : String) : ParserState :=
  match e with
  | .handStart info =>
    let st1 := match st.current with
      | some i => { st with handIdxs := st.handIdxs ++ [i] }
      | none => st
    match info with
    | some (num, hid, dealer) =>
      { st1 with
        store := st1.store ++ [newHand num hid dealer ts],
        current := some st1.store.length,
        currentStage := "preflop" }
    | none => st1
  | .handEnd => st
  | .stacksEntry sts =>
    modifyCurrent st (fun h =>
      { h with player_stacks := sts, players := sts.map (fun q => q.1) })
  | .flopEntry cards =>
    match st.current with
    | none => st
    | some _ =>
      { modifyCurrent st (fun h => { h with flop_cards := some cards }) with
          currentStage := "flop" }
  | .turnEntry card =>
    match st.current with
    | none => st
    | some _ =>
      { modifyCurrent st (fun h => { h with turn_card := card }) with
          currentStage := "turn" }
  | .riverEntry card =>
    match st.current with
    | none => st
    | some _ =>
      { modifyCurrent st (fun h => { h with river_card := card }) with
          currentStage := "river" }
  | .showsEntry info =>
    match st.current with
    | none => st
    | some _ =>
      match info with
      | some (p, cards) =>
        modifyCurrent st (fun h =>
          { h with showdown := h.showdown ++ [{ player := p, hole_cards := cards }] })
      | none => st
  | .actionEntry t =>
    match st.current with
    | none => st
    | some _ =>
      match matchedAction t with
      | none => st
      | some (kind, amt) =>
        if kind = "win" then
          modifyCurrent st (fun h =>
            { h with winner := some t.player, winning_amount := amt.getD 0,
                     pot_size := amt.getD 0 })
        else if kind = "return" then st
        else
          modifyCurrent st (appendAction st.currentStage
            { player := t.player, action := kind, amount := amt,
              timestamp := some ts, stage := st.currentStage })
  | .unrecognized => st

/-- Fold `process_entry` over a chronologically ordered entry stream
(entry text paired with its `at` timestamp). -/
def processEntries (st : ParserState) (es : List (Entry × String)) : ParserState :=
  es.foldl (fun s q => processEntry s q.1 q.2) st

/-- The tail of `parse_log_file`: after the entry loop, the final
in-progress hand (if any) is appended to `self.hands`. -/
def sealFinal (st : ParserState) : ParserState :=
  match st.current with
  | some i => { st with handIdxs := st.handIdxs ++ [i] }
  | none => st

/-- `parse_log_file`: process every entry in order, then append the final
in-progress hand if one exists; the parsed hands are the referenced heap
objects, in `self.hands` order. -/
def parseLog (es : List (Entry × String)) : List PokerHand :=
  (sealFinal (processEntries {} es)).handIdxs.map (getHand (sealFinal (processEntries {} es)))

/-- Entries that match the pot-collection pattern (`action_type 'win'`). -/
def isCollectEntry : Entry → Bool
  | .actionEntry t => t.verb == .collected
  | _ => false

/-- Entries that contain the hand-start marker. -/
def isHandStartEntry : Entry → Bool
  | .handStart _ => true
  | _ => false

/-- Well-formedness of the parser heap: the current-hand reference, when
present, points inside the store. -/
def wfState (st : ParserState) : Bool :=
  match st.current with
  | none => true
  | some i => decide (i < st.store.length)

example :
    parseLog
      [(.handStart (some (1, "h1", "D")), "t1"),
       (.actionEntry { player := "A", verb := .checksV, amount := none }, "t2"),
       (.handStart (some (2, "h2", "D")), "t3")] =
    [{ hand_id := "h1", hand_number := 1, dealer := "D", timestamp := some "t1",
       preflop_actions := [{ player := "A", action := "check", amount := none,
                             timestamp := some "t2", stage := "preflop" }] },
     { hand_id := "h2", hand_number := 2, dealer := "D", timestamp := some "t3" }] := by
  decide

/-- Number of raise actions strictly before position `j` of a stage list
(what the running preflop raise counter holds when position `j` is
reached). -/
def raisesBefore (l : List PlayerAction) (j : Nat) : Nat :=
  ((l.take j).filter (fun a => a.action == "raise")).length

/-- The `winner` field as it appears in the exported JSON record
(`export_to_json` writes `hand.winner`, which Python serializes as `null`
when it is `None`). -/
def jsonWinner (h : PokerHand) : Option String := h.winner

/-- The `winning_amount` field as it appears in the exported JSON record:
`export_to_json` writes `hand.winning_amount`, an `int` that is always
present (the dataclass default is `0`), so the exported value is never
`null`. -/
def jsonWinningAmount (h : PokerHand) : Option Nat := some h.winning_amount

/-- Hand exercising Scenario C of the spec: preflop aggressor `P2`, flop
actions `[check P1, bet P2]`. -/
def handC1 : PokerHand :=
  { preflop_actions := [{ player := "P2", action := "raise", amount := some 30 }],
    flop_actions :=
      [{ player := "P1", action := "check", stage := "flop" },
       { player := "P2", action := "bet", amount := some 50, stage := "flop" }] }

/-- Hand with five preflop raises (after the two blinds), to exercise the
raise-counter tags. -/
def handW2 : PokerHand :=
  { preflop_actions :=
      [{ player := "A", action := "blind", amount := some 5 },
       { player := "B", action := "blind", amount := some 10 },
       { player := "C", action := "raise", amount := some 30 },
       { player := "A", action := "raise", amount := some 90 },
       { player := "B", action := "raise", amount := some 270 },
       { player := "C", action := "raise", amount := some 810 },
       { player := "A", action := "raise", amount := some 2430 }] }

/-- Hand whose very first preflop action is a call of amount `0`. -/
def handC4 : PokerHand :=
  { preflop_actions := [{ player := "Z", action := "call", amount := some 0 }] }

/-- Scenario B of the spec: blinds 5 and 10, then `P1` calls 10. -/
def handW4 : PokerHand :=
  { preflop_actions :=
      [{ player := "P1", action := "blind", amount := some 5 },
       { player := "P2", action := "blind", amount := some 10 },
       { player := "P1", action := "call", amount := some 10 }] }

/-- Hand in which `P1` only posts a blind while `P2` acts. -/
def handC9 : PokerHand :=
  { preflop_actions :=
      [{ player := "P1", action := "blind", amount := some 5 },
       { player := "P2", action := "call", amount := some 10 }] }

/-- Hand in which `P2` acts preflop and on the flop but not later. -/
def handW9 : PokerHand :=
  { preflop_actions :=
      [{ player := "P1", action := "raise", amount := some 30 },
       { player := "P2", action := "call", amount := some 30 }],
    flop_actions :=
      [{ player := "P2", action := "check", stage := "flop" },
       { player := "P1", action := "bet", amount := some 40, stage := "flop" },
       { player := "P2", action := "fold", stage := "flop" }] }

/-- Parser state right after a single well-formed hand-start entry. -/
def stOneHand : ParserState :=
  processEntries {} [(.handStart (some (1, "h1", "D")), "t1")]

/-- Entry stream containing a malformed hand-start line (the marker text is
present, but its detail regex does not match) between two well-formed
ones. -/
def c5Stream : List (Entry × String) :=
  [(.handStart (some (1, "h1", "D")), "t1"),
   (.actionEntry { player := "A", verb := .checksV, amount := none }, "t2"),
   (.handStart none, "t3"),
   (.actionEntry { player := "A", verb := .callsV, amount := some 10 }, "t4"),
   (.handStart (some (2, "h2", "D")), "t5")]

/-- Entry stream for one hand that is never awarded a pot. -/
def c8Stream : List (Entry × String) :=
  [(.handStart (some (1, "h1", "D")), "t1"),
   (.actionEntry { player := "A", verb := .checksV, amount := none }, "t2")]

theorem preTagsAux_cons_blind (a : PlayerAction) (l : List PlayerAction)
    (i rc : Nat) (agg : Option String) (hb : a.action = "blind") :
    preTagsAux i rc agg (a :: l) =
      (([] : List String) :: (preTagsAux i rc agg l).1, (preTagsAux i rc agg l).2) := by
  simp [preTagsAux, hb]

theorem preTagsAux_cons_raise (a : PlayerAction) (l : List PlayerAction)
    (i rc : Nat) (agg : Option String) (hr : a.action = "raise") :
    preTagsAux i rc agg (a :: l) =
      ([raiseTagStr (rc + 1)] ::
          (preTagsAux (i + 1) (rc + 1) (if rc + 1 = 1 then some a.player else agg) l).1,
        (preTagsAux (i + 1) (rc + 1) (if rc + 1 = 1 then some a.player else agg) l).2) := by
  have hb : ¬ a.action = "blind" := by rw [hr]; decide
  simp only [preTagsAux, if_neg hb, if_pos hr]

theorem preTagsAux_cons_call0 (a : PlayerAction) (l : List PlayerAction)
    (i rc : Nat) (agg : Option String) (hc : a.action = "call") (hi : i = 0) :
    preTagsAux i rc agg (a :: l) =
      ((if limpOk a.amount then ["limp"] else []) :: (preTagsAux (i + 1) rc agg l).1,
        (preTagsAux (i + 1) rc agg l).2) := by
  have hb : ¬ a.action = "blind" := by rw [hc]; decide
  have hr : ¬ a.action = "raise" := by rw [hc]; decide
  simp only [preTagsAux, if_neg hb, if_neg hr, if_pos (And.intro hc hi)]

theorem preTagsAux_cons_other (a : PlayerAction) (l : List PlayerAction)
    (i rc : Nat) (agg : Option String) (hb : ¬ a.action = "blind")
    (hr : ¬ a.action = "raise") (hc : ¬ (a.action = "call" ∧ i = 0)) :
    preTagsAux i rc agg (a :: l) =
      (([] : List String) :: (preTagsAux (i + 1) rc agg l).1,
        (preTagsAux (i + 1) rc agg l).2) := by
  simp only [preTagsAux, if_neg hb, if_neg hr, if_neg hc]

theorem raisesBefore_cons (a : PlayerAction) (l : List PlayerAction) (j : Nat) :
    raisesBefore (a :: l) (j + 1) =
      (if a.action == "raise" then 1 else 0) + raisesBefore l j := by
  simp only [raisesBefore, List.take_succ_cons, List.filter_cons]
  by_cases hra : a.action == "raise" <;> simp [hra, Nat.add_comm]

theorem preTags_raise_getD (l : List PlayerAction) :
    ∀ j i rc agg (hj : j < l.length), l[j].action = "raise" →
      ((preTagsAux i rc agg l).1).getD j [] =
        [raiseTagStr (rc + raisesBefore l j + 1)] := by
  induction l with
  | nil => intro j i rc agg hj; exact absurd hj (by simp)
  | cons a l ih =>
    intro j i rc agg hj hr
    cases j with
    | zero =>
      have ha : a.action = "raise" := by simpa using hr
      rw [preTagsAux_cons_raise a l i rc agg ha]
      simp [raisesBefore]
    | succ j =>
      have hj2 : j < l.length := Nat.lt_of_succ_lt_succ (by simpa using hj)
      have hget : l[j].action = "raise" := by simpa using hr
      rw [raisesBefore_cons]
      by_cases hb : a.action = "blind"
      · have hra : (a.action == "raise") = false := by simp [hb]
        rw [preTagsAux_cons_blind a l i rc agg hb]
        simpa [hra] using ih j i rc agg hj2 hget
      · by_cases hrr : a.action = "raise"
        · have hra : (a.action == "raise") = true := by simp [hrr]
          rw [preTagsAux_cons_raise a l i rc agg hrr]
          rw [List.getD_cons_succ,
            ih j (i + 1) (rc + 1) (if rc + 1 = 1 then some a.player else agg) hj2 hget]
          simp only [hra, if_true]
          congr 2
          omega
        · have hra : (a.action == "raise") = false := by simp [hrr]
          by_cases hcc : a.action = "call" ∧ i = 0
          · rw [preTagsAux_cons_call0 a l i rc agg hcc.1 hcc.2]
            simpa [hra] using ih j (i + 1) rc agg hj2 hget
          · rw [preTagsAux_cons_other a l i rc agg hb hrr hcc]
            simpa [hra] using ih j (i + 1) rc agg hj2 hget

theorem preTags_blind_getD (l : List PlayerAction) :
    ∀ j i rc agg (hj : j < l.length), l[j].action = "blind" →
      ((preTagsAux i rc agg l).1).getD j [] = [] := by
  induction l with
  | nil => intro j i rc agg hj; exact absurd hj (by simp)
  | cons a l ih =>
    intro j i rc agg hj hbl
    cases j with
    | zero =>
      have ha : a.action = "blind" := by simpa using hbl
      rw [preTagsAux_cons_blind a l i rc agg ha]
      rfl
    | succ j =>
      have hj2 : j < l.length := Nat.lt_of_succ_lt_succ (by simpa using hj)
      have hget : l[j].action = "blind" := by simpa using hbl
      by_cases hb : a.action = "blind"
      · rw [preTagsAux_cons_blind a l i rc agg hb]
        simpa using ih j i rc agg hj2 hget
      · by_cases hrr : a.action = "raise"
        · rw [preTagsAux_cons_raise a l i rc agg hrr]
          simpa using
            ih j (i + 1) (rc + 1) (if rc + 1 = 1 then some a.player else agg) hj2 hget
        · by_cases hcc : a.action = "call" ∧ i = 0
          · rw [preTagsAux_cons_call0 a l i rc agg hcc.1 hcc.2]
            simpa using ih j (i + 1) rc agg hj2 hget
          · rw [preTagsAux_cons_other a l i rc agg hb hrr hcc]
            simpa using ih j (i + 1) rc agg hj2 hget

theorem preTagsAux_snd_stable (l : List PlayerAction) :
    ∀ i rc agg, 1 ≤ rc → (preTagsAux i rc agg l).2 = agg := by
  induction l with
  | nil => intro i rc agg _; rfl
  | cons a l ih =>
    intro i rc agg hrc
    by_cases hb : a.action = "blind"
    · rw [preTagsAux_cons_blind a l i rc agg hb]
      exact ih i rc agg hrc
    · by_cases hr : a.action = "raise"
      · rw [preTagsAux_cons_raise a l i rc agg hr]
        have hne : ¬ rc + 1 = 1 := by omega
        rw [if_neg hne]
        exact ih (i + 1) (rc + 1) agg (by omega)
      · by_cases hcc : a.action = "call" ∧ i = 0
        · rw [preTagsAux_cons_call0 a l i rc agg hcc.1 hcc.2]
          exact ih (i + 1) rc agg hrc
        · rw [preTagsAux_cons_other a l i rc agg hb hr hcc]
          exact ih (i + 1) rc agg hrc

theorem preTagsAux_snd_spec (l : List PlayerAction) :
    ∀ i agg, (preTagsAux i 0 agg l).2 =
      (match l.find? (fun a => a.action == "raise") with
        | some a => some a.player
        | none => agg) := by
  induction l with
  | nil => intro i agg; rfl
  | cons a l ih =>
    intro i agg
    by_cases hr : a.action = "raise"
    · have hfind : (a :: l).find? (fun x => x.action == "raise") = some a :=
        List.find?_cons_of_pos _ (by simp [hr])
      rw [preTagsAux_cons_raise a l i 0 agg hr, hfind]
      exact preTagsAux_snd_stable l (i + 1) 1 (some a.player) (by omega)
    · have hfind : (a :: l).find? (fun x => x.action == "raise") =
          l.find? (fun x => x.action == "raise") :=
        List.find?_cons_of_neg _ (by simp [hr])
      rw [hfind]
      by_cases hb : a.action = "blind"
      · rw [preTagsAux_cons_blind a l i 0 agg hb]
        exact ih i agg
      · by_cases hcc : a.action = "call" ∧ i = 0
        · rw [preTagsAux_cons_call0 a l i 0 agg hcc.1 hcc.2]
          exact ih (i + 1) agg
        · rw [preTagsAux_cons_other a l i 0 agg hb hr hcc]
          exact ih (i + 1) agg

theorem preflopAggressor_eq_find (l : List PlayerAction) :
    preflopAggressor l =
      (l.find? (fun a => a.action == "raise")).map (fun a => a.player) := by
  rw [preflopAggressor, preTagsAux_snd_spec l 0 none]
  cases l.find? (fun a => a.action == "raise") <;> rfl

theorem summaryAggressor_aux (l : List PlayerAction) :
    ∀ i agg, ((l.zip ((preTagsAux i 0 agg l).1)).find?
        (fun q => q.1.action == "raise" && q.2.contains "open")).map (fun q => q.1.player) =
      (l.find? (fun a => a.action == "raise")).map (fun a => a.player) := by
  induction l with
  | nil => intro i agg; rfl
  | cons a l ih =>
    intro i agg
    by_cases hr : a.action = "raise"
    · have hfind : (a :: l).find? (fun x => x.action == "raise") = some a :=
        List.find?_cons_of_pos _ (by simp [hr])
      rw [preTagsAux_cons_raise a l i 0 agg hr, hfind]
      have hopen : raiseTagStr (0 + 1) = "open" := rfl
      simp [List.find?_cons_of_pos, hr, hopen, List.contains]
    · have hfind : (a :: l).find? (fun x => x.action == "raise") =
          l.find? (fun x => x.action == "raise") :=
        List.find?_cons_of_neg _ (by simp [hr])
      rw [hfind]
      by_cases hb : a.action = "blind"
      · rw [preTagsAux_cons_blind a l i 0 agg hb]
        rw [List.zip_cons_cons, List.find?_cons_of_neg _ (by simp [hr])]
        exact ih i agg
      · by_cases hcc : a.action = "call" ∧ i = 0
        · rw [preTagsAux_cons_call0 a l i 0 agg hcc.1 hcc.2]
          rw [List.zip_cons_cons, List.find?_cons_of_neg _ (by simp [hr])]
          exact ih (i + 1) agg
        · rw [preTagsAux_cons_other a l i 0 agg hb hr hcc]
          rw [List.zip_cons_cons, List.find?_cons_of_neg _ (by simp [hr])]
          exact ih (i + 1) agg

theorem summaryPreflopAggressor_eq (l : List PlayerAction) :
    summaryPreflopAggressor l = preflopAggressor l := by
  rw [summaryPreflopAggressor, preflopAggressor_eq_find]
  exact summaryAggressor_aux l 0 none

theorem preTags_limp_getD (l : List PlayerAction) :
    ∀ j i rc agg (hj : j < l.length), l[j].action = "call" →
      ("limp" ∈ ((preTagsAux i rc agg l).1).getD j [] ↔
        (i + ((l.take j).filter (fun a => a.action != "blind")).length = 0 ∧
          limpOk (l[j].amount) = true)) := by
  induction l with
  | nil => intro j i rc agg hj; exact absurd hj (by simp)
  | cons a l ih =>
    intro j i rc agg hj hcall
    cases j with
    | zero =>
      have ha : a.action = "call" := by simpa using hcall
      have hham : (a :: l)[0].amount = a.amount := rfl
      by_cases hi : i = 0
      · rw [preTagsAux_cons_call0 a l i rc agg ha hi, hham]
        by_cases hlo : limpOk a.amount
        · simp [hlo, hi]
        · simp [hlo, hi]
      · have hb : ¬ a.action = "blind" := by rw [ha]; decide
        have hr : ¬ a.action = "raise" := by rw [ha]; decide
        have hcc : ¬ (a.action = "call" ∧ i = 0) := by
          intro hx; exact hi hx.2
        rw [preTagsAux_cons_other a l i rc agg hb hr hcc, hham]
        simp [hi]
    | succ j =>
      have hj2 : j < l.length := Nat.lt_of_succ_lt_succ (by simpa using hj)
      have hget : l[j].action = "call" := by simpa using hcall
      have hham : (a :: l)[j + 1].amount = l[j].amount := by simp
      have htake : ((a :: l).take (j + 1)).filter (fun x => x.action != "blind") =
          (if a.action != "blind" then [a] else []) ++
            ((l.take j).filter (fun x => x.action != "blind")) := by
        simp only [List.take_succ_cons, List.filter_cons]
        by_cases hx : a.action != "blind" <;> simp [hx]
      by_cases hb : a.action = "blind"
      · have hnb : (a.action != "blind") = false := by simp [hb]
        rw [preTagsAux_cons_blind a l i rc agg hb, htake, hham]
        simpa [hnb] using ih j i rc agg hj2 hget
      · have hnb : (a.action != "blind") = true := by simp [hb]
        have harith : ∀ n : Nat, (i + (1 + n) = 0) ↔ (i + 1 + n = 0) := by omega
        by_cases hrr : a.action = "raise"
        · rw [preTagsAux_cons_raise a l i rc agg hrr, htake, hham,
            List.getD_cons_succ,
            ih j (i + 1) (rc + 1) (if rc + 1 = 1 then some a.player else agg) hj2 hget]
          simp only [hnb, if_true, List.length_append, List.length_cons,
            List.length_nil]
          exact ⟨fun hx => ⟨by omega, hx.2⟩, fun hx => ⟨by omega, hx.2⟩⟩
        · by_cases hcc : a.action = "call" ∧ i = 0
          · rw [preTagsAux_cons_call0 a l i rc agg hcc.1 hcc.2, htake, hham,
              List.getD_cons_succ, ih j (i + 1) rc agg hj2 hget]
            simp only [hnb, if_true, List.length_append, List.length_cons,
              List.length_nil]
            exact ⟨fun hx => ⟨by omega, hx.2⟩, fun hx => ⟨by omega, hx.2⟩⟩
          · rw [preTagsAux_cons_other a l i rc agg hb hrr hcc, htake, hham,
              List.getD_cons_succ, ih j (i + 1) rc agg hj2 hget]
            simp only [hnb, if_true, List.length_append, List.length_cons,
              List.length_nil]
            exact ⟨fun hx => ⟨by omega, hx.2⟩, fun hx => ⟨by omega, hx.2⟩⟩

/-- Claim C2 (confirmed): in the preflop stage the Kth raise (counting
raises in list order; blind postings are never raises) receives exactly the
tag `open` for K = 1, `3bet` for K = 2, `4bet` for K = 3 and `{K+1}bet` for
K ≥ 4; blind postings receive no tags; and the preflop aggressor recorded
by the tagger is the actor of the first raise, which is also the value the
Summary reports. -/
theorem c2_preflop_raise_tags (h : PokerHand) :
    (∀ j (hj : j < h.preflop_actions.length),
        h.preflop_actions[j].action = "raise" →
        (preflopTags h.preflop_actions).getD j [] =
          [raiseTagStr (raisesBefore h.preflop_actions j + 1)]) ∧
    (∀ j (hj : j < h.preflop_actions.length),
        h.preflop_actions[j].action = "blind" →
        (preflopTags h.preflop_actions).getD j [] = []) ∧
    (raiseTagStr 1 = "open" ∧ raiseTagStr 2 = "3bet" ∧ raiseTagStr 3 = "4bet" ∧
      ∀ K, 4 ≤ K → raiseTagStr K = toString (K + 1) ++ "bet") ∧
    preflopAggressor h.preflop_actions =
      (h.preflop_actions.find? (fun a => a.action == "raise")).map (fun a => a.player) ∧
    summaryPreflopAggressor h.preflop_actions = preflopAggressor h.preflop_actions := by
  refine ⟨?_, ?_, ⟨rfl, rfl, rfl, ?_⟩, preflopAggressor_eq_find _,
    summaryPreflopAggressor_eq _⟩
  · intro j hj hr
    simpa [preflopTags] using
      preTags_raise_getD h.preflop_actions j 0 0 none hj hr
  · intro j hj hb
    simpa [preflopTags] using
      preTags_blind_getD h.preflop_actions j 0 0 none hj hb
  · intro K hK
    have h1 : ¬ K = 1 := by omega
    have h2 : ¬ K = 2 := by omega
    have h3 : ¬ K = 3 := by omega
    simp [raiseTagStr, h1, h2, h3]

/-- Witness for C2 at a concrete hand with two blinds and five raises: the
fifth raise (position 6) is tagged by the counter, the first blind gets no
tag, and the aggressor equals the first raiser both in the tagger and in
the summary. -/
theorem c2_preflop_raise_tags_witness :
    ((preflopTags handW2.preflop_actions).getD 6 [] =
        [raiseTagStr (raisesBefore handW2.preflop_actions 6 + 1)] ∧
      (preflopTags handW2.preflop_actions).getD 0 [] = [] ∧
      raiseTagStr 5 = toString 6 ++ "bet") ∧
    preflopAggressor handW2.preflop_actions =
      (handW2.preflop_actions.find? (fun a => a.action == "raise")).map
        (fun a => a.player) :=
  ⟨⟨(c2_preflop_raise_tags handW2).1 6 (by decide) (by decide),
    (c2_preflop_raise_tags handW2).2.1 0 (by decide) (by decide),
    (c2_preflop_raise_tags handW2).2.2.1.2.2.2 5 (by decide)⟩,
    (c2_preflop_raise_tags handW2).2.2.2.1⟩

/-- Claim C4 counterexample: the very first (and only) preflop action of
`handC4` is a call whose amount `0` is below the threshold (the spec's
Scenario B reads "amount ≤ threshold"), yet the tagger attaches no `limp`
tag, because Python's `action['amount'] and ...` treats the amount `0` as
falsy. -/
theorem c4_limp_counterexample :
    handC4.preflop_actions =
      [{ player := "Z", action := "call", amount := some 0 }] ∧
    (0 : Nat) ≤ 100 ∧
    preflopTags handC4.preflop_actions = [[]] := by decide

/-- Claim C4 (corrected): a preflop `call` is tagged `limp` iff it is the
very first non-blind action of the stage AND its amount is present, nonzero
and at most 100 — the code's falsy test excludes an amount of zero, which
the claim's "below the fixed small threshold" admits. -/
theorem c4_limp_iff (h : PokerHand) (j : Nat) (hj : j < h.preflop_actions.length)
    (hcall : h.preflop_actions[j].action = "call") :
    "limp" ∈ (preflopTags h.preflop_actions).getD j [] ↔
      ((∀ a ∈ h.preflop_actions.take j, a.action = "blind") ∧
        ∃ v, h.preflop_actions[j].amount = some v ∧ v ≠ 0 ∧ v ≤ 100) := by
  rw [preflopTags, preTags_limp_getD h.preflop_actions j 0 0 none hj hcall]
  have hcnt : (0 + ((h.preflop_actions.take j).filter
        (fun a => a.action != "blind")).length = 0) ↔
      ∀ a ∈ h.preflop_actions.take j, a.action = "blind" := by
    simp [List.length_eq_zero, List.filter_eq_nil_iff]
  have hlimp : limpOk (h.preflop_actions[j].amount) = true ↔
      ∃ v, h.preflop_actions[j].amount = some v ∧ v ≠ 0 ∧ v ≤ 100 := by
    cases hx : h.preflop_actions[j].amount with
    | none => simp [limpOk]
    | some v => simp [limpOk]
  exact and_congr hcnt hlimp

/-- Witness for C4 at Scenario B: blinds 5 and 10, then `P1` calls 10 as the
first non-blind action — tagged `limp`. -/
theorem c4_limp_iff_witness :
    "limp" ∈ (preflopTags handW4.preflop_actions).getD 2 [] :=
  (c4_limp_iff handW4 2 (by decide) (by decide)).mpr
    ⟨by decide, ⟨10, by decide, by decide, by decide⟩⟩

/-- Claim C1 counterexample: in `handC1` the preflop aggressor is `P2` and
the flop actions are exactly `[check P1, bet P2]`, yet `P2`'s bet receives
no tag at all — the code only considers `cbet`/`donk` for the bet at stage
position 0, and here the check occupies position 0. -/
theorem c1_cbet_counterexample :
    preflopAggressor handC1.preflop_actions = some "P2" ∧
    handC1.flop_actions.map (fun a => (a.player, a.action)) =
      [("P1", "check"), ("P2", "bet")] ∧
    flopTags handC1 = [[], []] ∧
    "cbet" ∉ (flopTags handC1).getD 1 [] := by decide

/-- Claim C1 (corrected): for a hand whose flop list is exactly
`[check p1, bet p2]` with `p1 ≠ p2` and preflop aggressor `p2`, the tagger
attaches no tag at all in that stage: the bet is not the stage's first
action, so no `cbet` (nor `donk`) is considered, and `p2` has no pending
check, so no `check-raise` either. -/
theorem c1_checked_to_cbet_untagged (h : PokerHand) (p1 p2 : String)
    (c b : PlayerAction) (hf : h.flop_actions = [c, b])
    (hck : c.action = "check") (hcp : c.player = p1)
    (hbk : b.action = "bet") (hbp : b.player = p2) (hne : p1 ≠ p2)
    (_hagg : preflopAggressor h.preflop_actions = some p2) :
    flopTags h = [[], []] := by
  have hbeq : (p1 == p2) = false := by simp [hne]
  rw [flopTags, hf, postTags]
  simp [postTagsAux, postStep, hck, hcp, hbk, hbp, crInsert, crMem, crErase, hbeq]

/-- Witness for C1's corrected statement at the concrete Scenario C hand. -/
theorem c1_checked_to_cbet_untagged_witness : flopTags handC1 = [[], []] :=
  c1_checked_to_cbet_untagged handC1 "P1" "P2"
    { player := "P1", action := "check", stage := "flop" }
    { player := "P2", action := "bet", amount := some 50, stage := "flop" }
    (by decide) rfl rfl rfl rfl (by decide) (by decide)

theorem postTagsAux_cons (agg : Option String) (i : Nat)
    (cs : List (String × Nat)) (a : PlayerAction) (l : List PlayerAction) :
    postTagsAux agg i cs (a :: l) =
      (postStep agg i cs a).1 :: postTagsAux agg (i + 1) (postStep agg i cs a).2 l :=
  rfl

theorem candsList_cons (agg : Option String) (i : Nat)
    (cs : List (String × Nat)) (a : PlayerAction) (l : List PlayerAction) :
    candsList agg i cs (a :: l) = candsList agg (i + 1) (postStep agg i cs a).2 l :=
  rfl

theorem postTagsAux_length (agg : Option String) :
    ∀ (l : List PlayerAction) (i : Nat) (cs : List (String × Nat)),
      (postTagsAux agg i cs l).length = l.length := by
  intro l
  induction l with
  | nil => intro i cs; rfl
  | cons a l ih => intro i cs; simp [postTagsAux_cons, ih]

theorem postTagsAux_append (agg : Option String) (xs : List PlayerAction) :
    ∀ (ys : List PlayerAction) (i : Nat) (cs : List (String × Nat)),
      postTagsAux agg i cs (xs ++ ys) =
        postTagsAux agg i cs xs ++
          postTagsAux agg (i + xs.length) (candsList agg i cs xs) ys := by
  induction xs with
  | nil => intro ys i cs; simp [postTagsAux, candsList]
  | cons a xs ih =>
    intro ys i cs
    simp only [List.cons_append, postTagsAux_cons, candsList_cons, List.length_cons]
    rw [ih ys (i + 1) (postStep agg i cs a).2]
    have hlen : i + 1 + xs.length = i + (xs.length + 1) := by omega
    rw [hlen]

theorem candsList_append (agg : Option String) (xs : List PlayerAction) :
    ∀ (ys : List PlayerAction) (i : Nat) (cs : List (String × Nat)),
      candsList agg i cs (xs ++ ys) =
        candsList agg (i + xs.length) (candsList agg i cs xs) ys := by
  induction xs with
  | nil => intro ys i cs; simp [candsList]
  | cons a xs ih =>
    intro ys i cs
    simp only [List.cons_append, candsList_cons, List.length_cons]
    rw [ih ys (i + 1) (postStep agg i cs a).2]
    have hlen : i + 1 + xs.length = i + (xs.length + 1) := by omega
    rw [hlen]

theorem getD_append_len {α : Type} (A : List α) :
    ∀ (B : List α) (d : α) (n : Nat), n = A.length →
      (A ++ B).getD n d = B.getD 0 d := by
  induction A with
  | nil => intro B d n hn; subst hn; rfl
  | cons a A ih =>
    intro B d n hn
    subst hn
    simpa using ih B d A.length rfl

theorem any_key_map (p q : String) (j : Nat) :
    ∀ cs : List (String × Nat),
      (cs.map (fun r => if r.1 == q then (q, j) else r)).any (fun r => r.1 == p)
        = cs.any (fun r => r.1 == p) := by
  intro cs
  induction cs with
  | nil => rfl
  | cons r cs ih =>
    rw [List.map_cons, List.any_cons, List.any_cons, ih]
    by_cases hr : r.1 == q
    · have hrq : r.1 = q := by simpa using hr
      rw [if_pos hr]
      simp [hrq]
    · rw [if_neg hr]

theorem crMem_crInsert (p q : String) (j : Nat) (cs : List (String × Nat)) :
    crMem p (crInsert q j cs) = (crMem p cs || (q == p)) := by
  unfold crInsert crMem
  by_cases hq : cs.any (fun r => r.1 == q)
  · rw [if_pos hq, any_key_map p q j cs]
    by_cases hqp : q == p
    · have hqp2 : q = p := by simpa using hqp
      subst hqp2
      simp only [hqp, Bool.or_true]
      exact hq
    · simp [hqp]
  · rw [if_neg hq]
    simp [List.any_append]

theorem crMem_crErase_self (p : String) (cs : List (String × Nat)) :
    crMem p (crErase p cs) = false := by
  rw [crMem, crErase, List.any_filter, List.any_eq_false]
  intro r _
  by_cases h : r.1 == p <;> simp [bne, h]

theorem crMem_crErase_false (p q : String) (cs : List (String × Nat))
    (h : crMem p cs = false) : crMem p (crErase q cs) = false := by
  rw [crMem] at h
  rw [List.any_eq_false] at h
  rw [crMem, crErase, List.any_filter, List.any_eq_false]
  intro r hr
  simp [h r hr]

theorem crMem_crErase_ne (p q : String) (hpq : ¬ q = p) (cs : List (String × Nat)) :
    crMem p (crErase q cs) = crMem p cs := by
  rw [crMem, crMem, crErase, List.any_filter]
  induction cs with
  | nil => rfl
  | cons r cs ih =>
    rw [List.any_cons, List.any_cons, ih]
    by_cases hr : r.1 == p
    · have hrp : r.1 = p := by simpa using hr
      have hq : (r.1 != q) = true := by
        simp only [bne_iff_ne, ne_eq, hrp]
        intro hx
        exact hpq hx.symm
      simp [hq, hr]
    · simp [hr]

theorem crMem_postStep_irrelevant (agg : Option String) (i : Nat)
    (cs : List (String × Nat)) (a : PlayerAction) (p : String)
    (h : ¬ (a.player = p ∧ (a.action = "check" ∨ a.action = "bet" ∨ a.action = "raise"))) :
    crMem p (postStep agg i cs a).2 = crMem p cs := by
  unfold postStep
  by_cases hb : a.action = "bet"
  · have hne : ¬ a.player = p := fun hp => h ⟨hp, Or.inr (Or.inl hb)⟩
    rw [if_pos hb]
    by_cases hi : i = 0
    · rw [if_pos hi]
    · rw [if_neg hi]
      by_cases hm : crMem a.player cs
      · rw [if_pos hm]
        exact crMem_crErase_ne p a.player hne cs
      · rw [if_neg hm]
  · rw [if_neg hb]
    by_cases hr : a.action = "raise"
    · have hne : ¬ a.player = p := fun hp => h ⟨hp, Or.inr (Or.inr hr)⟩
      rw [if_pos hr]
      by_cases hm : crMem a.player cs
      · rw [if_pos hm]
        exact crMem_crErase_ne p a.player hne cs
      · rw [if_neg hm]
    · rw [if_neg hr]
      by_cases hc : a.action = "check"
      · have hne : ¬ a.player = p := fun hp => h ⟨hp, Or.inl hc⟩
        rw [if_pos hc]
        show crMem p (crInsert a.player i cs) = crMem p cs
        rw [crMem_crInsert]
        have hbeq : (a.player == p) = false := by
          simp only [beq_eq_false_iff_ne, ne_eq]
          exact hne
        rw [hbeq, Bool.or_false]
      · rw [if_neg hc]

theorem crMem_postStep_noCheck (agg : Option String) (i : Nat)
    (cs : List (String × Nat)) (a : PlayerAction) (p : String)
    (hmem : crMem p cs = false) (h : ¬ (a.player = p ∧ a.action = "check")) :
    crMem p (postStep agg i cs a).2 = false := by
  unfold postStep
  by_cases hb : a.action = "bet"
  · rw [if_pos hb]
    by_cases hi : i = 0
    · rw [if_pos hi]
      exact hmem
    · rw [if_neg hi]
      by_cases hm : crMem a.player cs
      · rw [if_pos hm]
        exact crMem_crErase_false p a.player cs hmem
      · rw [if_neg hm]
        exact hmem
  · rw [if_neg hb]
    by_cases hr : a.action = "raise"
    · rw [if_pos hr]
      by_cases hm : crMem a.player cs
      · rw [if_pos hm]
        exact crMem_crErase_false p a.player cs hmem
      · rw [if_neg hm]
        exact hmem
    · rw [if_neg hr]
      by_cases hc : a.action = "check"
      · rw [if_pos hc]
        show crMem p (crInsert a.player i cs) = false
        rw [crMem_crInsert, hmem]
        have hbeq : (a.player == p) = false := by
          simp only [beq_eq_false_iff_ne, ne_eq]
          exact fun hp => h ⟨hp, hc⟩
        rw [hbeq, Bool.or_false]
      · rw [if_neg hc]
        exact hmem

theorem crMem_postStep_check (agg : Option String) (i : Nat)
    (cs : List (String × Nat)) (a : PlayerAction) (p : String)
    (hp : a.player = p) (hc : a.action = "check") :
    crMem p (postStep agg i cs a).2 = true := by
  have hb : ¬ a.action = "bet" := by rw [hc]; decide
  have hr : ¬ a.action = "raise" := by rw [hc]; decide
  unfold postStep
  rw [if_neg hb, if_neg hr, if_pos hc]
  show crMem p (crInsert a.player i cs) = true
  rw [crMem_crInsert, hp]
  simp

theorem crMem_postStep_betRaise (agg : Option String) (i : Nat)
    (cs : List (String × Nat)) (a : PlayerAction) (p : String)
    (hp : a.player = p) (hk : a.action = "bet" ∨ a.action = "raise")
    (hi : ¬ i = 0 ∨ crMem p cs = false) :
    crMem p (postStep agg i cs a).2 = false := by
  unfold postStep
  cases hk with
  | inl hb =>
    rw [if_pos hb]
    by_cases hi0 : i = 0
    · cases hi with
      | inl hx => exact absurd hi0 hx
      | inr hx => rw [if_pos hi0]; exact hx
    · rw [if_neg hi0]
      by_cases hm : crMem a.player cs
      · rw [if_pos hm]
        show crMem p (crErase a.player cs) = false
        rw [hp]
        exact crMem_crErase_self p cs
      · rw [if_neg hm]
        show crMem p cs = false
        rw [← hp]
        simpa using hm
  | inr hr =>
    have hb : ¬ a.action = "bet" := by rw [hr]; decide
    rw [if_neg hb, if_pos hr]
    by_cases hm : crMem a.player cs
    · rw [if_pos hm]
      show crMem p (crErase a.player cs) = false
      rw [hp]
      exact crMem_crErase_self p cs
    · rw [if_neg hm]
      show crMem p cs = false
      rw [← hp]
      simpa using hm

theorem crMem_candsList_irrelevant (agg : Option String) (p : String) :
    ∀ (xs : List PlayerAction) (i : Nat) (cs : List (String × Nat)),
      (∀ a ∈ xs, ¬ (a.player = p ∧ (a.action = "check" ∨ a.action = "bet" ∨ a.action = "raise"))) →
      crMem p (candsList agg i cs xs) = crMem p cs := by
  intro xs
  induction xs with
  | nil => intro i cs _; rfl
  | cons a xs ih =>
    intro i cs hall
    rw [candsList_cons, ih (i + 1) _ (fun x hx => hall x (List.mem_cons_of_mem a hx))]
    exact crMem_postStep_irrelevant agg i cs a p (hall a (List.mem_cons_self a xs))

theorem crMem_candsList_noCheck (agg : Option String) (p : String) :
    ∀ (xs : List PlayerAction) (i : Nat) (cs : List (String × Nat)),
      crMem p cs = false →
      (∀ a ∈ xs, ¬ (a.player = p ∧ a.action = "check")) →
      crMem p (candsList agg i cs xs) = false := by
  intro xs
  induction xs with
  | nil => intro i cs hmem _; exact hmem
  | cons a xs ih =>
    intro i cs hmem hall
    rw [candsList_cons]
    exact ih (i + 1) _
      (crMem_postStep_noCheck agg i cs a p hmem (hall a (List.mem_cons_self a xs)))
      (fun x hx => hall x (List.mem_cons_of_mem a hx))

theorem postStep_fst_checkRaise (agg : Option String) (i : Nat)
    (cs : List (String × Nat)) (b : PlayerAction) (hi : ¬ i = 0)
    (hk : b.action = "bet" ∨ b.action = "raise") (hm : crMem b.player cs = true) :
    (postStep agg i cs b).1 = ["check-raise"] := by
  unfold postStep
  cases hk with
  | inl hb => rw [if_pos hb, if_neg hi, if_pos hm]
  | inr hr =>
    have hb : ¬ b.action = "bet" := by rw [hr]; decide
    rw [if_neg hb, if_pos hr, if_pos hm]

theorem postStep_fst_noTag (agg : Option String) (i : Nat)
    (cs : List (String × Nat)) (b : PlayerAction) (hi : ¬ i = 0)
    (hk : b.action = "bet" ∨ b.action = "raise") (hm : crMem b.player cs = false) :
    (postStep agg i cs b).1 = [] := by
  have hm2 : ¬ crMem b.player cs = true := by rw [hm]; decide
  unfold postStep
  cases hk with
  | inl hb => rw [if_pos hb, if_neg hi, if_neg hm2]
  | inr hr =>
    have hb : ¬ b.action = "bet" := by rw [hr]; decide
    rw [if_neg hb, if_pos hr, if_neg hm2]

theorem postTags_getD_at (agg : Option String) (X : List PlayerAction)
    (y : PlayerAction) (Y : List PlayerAction) :
    (postTags agg (X ++ y :: Y)).getD X.length [] =
      (postStep agg X.length (candsList agg 0 [] X) y).1 := by
  rw [postTags, postTagsAux_append agg X (y :: Y) 0 [], Nat.zero_add]
  rw [getD_append_len _ _ _ X.length (postTagsAux_length agg X 0 []).symm]
  rfl

/-- Claim C3 (confirmed): per postflop stage, if player P checks at position
`l1.length` and P's next bet/raise in the same stage is at position
`l1.length + 1 + l2.length` with no intervening check, bet or raise by P
(list `l2`), then exactly that action is tagged `check-raise`, P's pending
mark is cleared right after it, and a later bet/raise by P (after a gap
`m1` with no check by P) is not tagged `check-raise`. -/
theorem c3_check_raise (agg : Option String) (P : String)
    (l1 l2 l3 : List PlayerAction) (c b : PlayerAction)
    (hcp : c.player = P) (hck : c.action = "check")
    (hbp : b.player = P) (hbk : b.action = "bet" ∨ b.action = "raise")
    (hmid : ∀ a ∈ l2,
      ¬ (a.player = P ∧ (a.action = "check" ∨ a.action = "bet" ∨ a.action = "raise"))) :
    ((postTags agg (l1 ++ c :: l2 ++ b :: l3)).getD (l1.length + 1 + l2.length) [] =
        ["check-raise"]) ∧
    (crMem P (candsList agg 0 [] ((l1 ++ c :: l2) ++ [b])) = false) ∧
    (∀ m1 b2 m2, l3 = m1 ++ b2 :: m2 → b2.player = P →
      (b2.action = "bet" ∨ b2.action = "raise") →
      (∀ a ∈ m1, ¬ (a.player = P ∧ a.action = "check")) →
      "check-raise" ∉
        (postTags agg (l1 ++ c :: l2 ++ b :: l3)).getD
          (l1.length + 1 + l2.length + 1 + m1.length) []) := by
  have hXeq : l1 ++ c :: l2 ++ b :: l3 = (l1 ++ c :: l2) ++ b :: l3 := by simp
  have hXlen : l1.length + 1 + l2.length = (l1 ++ c :: l2).length := by
    simp only [List.length_append, List.length_cons]
    omega
  have hXpos : ¬ (l1 ++ c :: l2).length = 0 := by
    simp only [List.length_append, List.length_cons]
    omega
  have hmem : crMem P (candsList agg 0 [] (l1 ++ c :: l2)) = true := by
    rw [candsList_append agg l1 (c :: l2) 0 [], candsList_cons,
      crMem_candsList_irrelevant agg P l2 _ _ hmid]
    exact crMem_postStep_check agg (0 + l1.length) (candsList agg 0 [] l1) c P hcp hck
  have hafter : crMem P (candsList agg 0 [] ((l1 ++ c :: l2) ++ [b])) = false := by
    rw [candsList_append agg (l1 ++ c :: l2) [b] 0 [], Nat.zero_add, candsList_cons]
    show crMem P (postStep agg (l1 ++ c :: l2).length (candsList agg 0 [] (l1 ++ c :: l2)) b).2 = false
    exact crMem_postStep_betRaise agg _ _ b P hbp hbk (Or.inl hXpos)
  refine ⟨?_, hafter, ?_⟩
  · rw [hXeq, hXlen, postTags_getD_at agg (l1 ++ c :: l2) b l3]
    refine postStep_fst_checkRaise agg _ _ b hXpos hbk ?_
    rw [hbp]
    exact hmem
  · intro m1 b2 m2 hsplit hb2p hb2k hm1
    have hYeq : l1 ++ c :: l2 ++ b :: l3 =
        ((l1 ++ c :: l2) ++ b :: m1) ++ b2 :: m2 := by
      rw [hsplit]
      simp
    have hYlen : l1.length + 1 + l2.length + 1 + m1.length =
        ((l1 ++ c :: l2) ++ b :: m1).length := by
      simp only [List.length_append, List.length_cons]
      omega
    have hYpos : ¬ ((l1 ++ c :: l2) ++ b :: m1).length = 0 := by
      simp only [List.length_append, List.length_cons]
      omega
    have hmem2 : crMem P (candsList agg 0 [] ((l1 ++ c :: l2) ++ b :: m1)) = false := by
      rw [candsList_append agg (l1 ++ c :: l2) (b :: m1) 0 [], Nat.zero_add, candsList_cons]
      refine crMem_candsList_noCheck agg P m1 _ _ ?_ hm1
      exact crMem_postStep_betRaise agg _ _ b P hbp hbk (Or.inl hXpos)
    rw [hYeq, hYlen, postTags_getD_at agg ((l1 ++ c :: l2) ++ b :: m1) b2 m2]
    rw [postStep_fst_noTag agg _ _ b2 hYpos hb2k (by rw [hb2p]; exact hmem2)]
    simp

/-- Witness for C3: `A` checks, `B` bets, `A` check-raises (tagged), then
`A` raises again in the same stage (not tagged). -/
theorem c3_check_raise_witness :
    (postTags none
        [{ player := "A", action := "check", stage := "flop" },
         { player := "B", action := "bet", amount := some 10, stage := "flop" },
         { player := "A", action := "raise", amount := some 30, stage := "flop" },
         { player := "A", action := "raise", amount := some 60, stage := "flop" }]).getD
      2 [] = ["check-raise"] ∧
    "check-raise" ∉
      (postTags none
        [{ player := "A", action := "check", stage := "flop" },
         { player := "B", action := "bet", amount := some 10, stage := "flop" },
         { player := "A", action := "raise", amount := some 30, stage := "flop" },
         { player := "A", action := "raise", amount := some 60, stage := "flop" }]).getD
      3 [] := by
  have h := c3_check_raise none "A" []
    [{ player := "B", action := "bet", amount := some 10, stage := "flop" }]
    [{ player := "A", action := "raise", amount := some 60, stage := "flop" }]
    { player := "A", action := "check", stage := "flop" }
    { player := "A", action := "raise", amount := some 30, stage := "flop" }
    rfl rfl rfl (Or.inr rfl) (by decide)
  exact ⟨h.1, h.2.2 []
    { player := "A", action := "raise", amount := some 60, stage := "flop" }
    [] rfl rfl (Or.inr rfl) (by decide)⟩

/-- Claim C5 (code bug): evaluating the assembler on `c5Stream`.  After the
malformed hand-start entry (entry 3) the first hand has been sealed into
`self.hands` with one preflop action; yet the final output contains that
same hand object twice (the malformed start left `current_hand` pointing at
it), and it now carries two preflop actions — one appended after it was
sealed.  Three hand-start markers thus yield two distinct hands, one of
them duplicated and mutated after sealing. -/
theorem c5_malformed_handstart_bug :
    ((processEntries {} (c5Stream.take 3)).handIdxs = [0] ∧
      (getHand (processEntries {} (c5Stream.take 3)) 0).preflop_actions.length = 1) ∧
    (parseLog c5Stream).length = 3 ∧
    (parseLog c5Stream).getD 0 emptyHand = (parseLog c5Stream).getD 1 emptyHand ∧
    ((parseLog c5Stream).getD 0 emptyHand).preflop_actions.length = 2 := by decide

/-- Claim C6 counterexample: an uncalled-bet-return entry of 50 to `A`
leaves winner, winning_amount and pot_size untouched (winner stays absent),
whereas the claim says they are updated as a pot-collection entry would
update them (the same entry with the pot-collection verb sets the
winner). -/
theorem c6_uncalled_return_counterexample :
    (getHand (processEntries stOneHand
        [(.actionEntry { player := "A", verb := .uncalledReturn, amount := some 50 },
          "t2")]) 0).winner = none ∧
    (getHand (processEntries stOneHand
        [(.actionEntry { player := "A", verb := .uncalledReturn, amount := some 50 },
          "t2")]) 0).winning_amount = 0 ∧
    (getHand (processEntries stOneHand
        [(.actionEntry { player := "A", verb := .uncalledReturn, amount := some 50 },
          "t2")]) 0).pot_size = 0 ∧
    (getHand (processEntries stOneHand
        [(.actionEntry { player := "A", verb := .collected, amount := some 50 },
          "t2")]) 0).winner = some "A" := by decide

/-- Claim C6 (corrected): an uncalled-bet-return entry appends no Action to
any stage list and updates nothing at all — `process_entry` skips it
(`action_type 'return'` falls into a `pass`), so the whole parser state is
unchanged. -/
theorem c6_uncalled_return_noop (st : ParserState) (p ts : String) (amt : Option Nat) :
    processEntry st
      (.actionEntry { player := p, verb := .uncalledReturn, amount := amt }) ts = st := by
  cases hc : st.current with
  | none => simp [processEntry, hc]
  | some i =>
    cases amt with
    | none => simp [processEntry, hc, matchedAction, verbNeedsAmount]
    | some n => simp [processEntry, hc, matchedAction, verbNeedsAmount, verbKind]

/-- Claim C7 counterexample: a bet-phrase entry with no parsable integer
appends nothing — the `(\d+)` group makes the pattern fail, the entry
matches no pattern at all, and the parser state is unchanged (no Action
with kind `bet` and absent amount is ever created). -/
theorem c7_missing_amount_counterexample :
    processEntry stOneHand
        (.actionEntry { player := "A", verb := .betsV, amount := none }) "t2" =
      stOneHand ∧
    (getHand (processEntry stOneHand
        (.actionEntry { player := "A", verb := .betsV, amount := none }) "t2")
      0).preflop_actions = [] := by decide

/-- Claim C7 (corrected): an action-phrase entry whose pattern carries a
mandatory integer group (every pattern except `folds`/`checks`) but whose
text has no parsable integer matches no pattern, so no Action is appended
and the parser state is left unchanged. -/
theorem c7_missing_amount_no_action (st : ParserState) (p ts : String) (v : Verb)
    (hv : verbNeedsAmount v = true) :
    processEntry st (.actionEntry { player := p, verb := v, amount := none }) ts = st := by
  cases hc : st.current with
  | none => simp [processEntry, hc]
  | some i => simp [processEntry, hc, matchedAction, hv]

/-- Witness for C7's corrected statement: a bet phrase with a missing
amount leaves the one-hand parser state untouched. -/
theorem c7_missing_amount_no_action_witness :
    processEntry stOneHand
        (.actionEntry { player := "A", verb := .betsV, amount := none }) "t2" =
      stOneHand ∧
    verbNeedsAmount .betsV = true :=
  ⟨c7_missing_amount_no_action stOneHand "A" "t2" .betsV (by decide), by decide⟩

/-- Claim C8 counterexample: a hand assembled from a stream with no
pot-collection entry exports winner as absent but winning_amount as the
number `0` — a sentinel zero, not "no value" as the claim requires. -/
theorem c8_sentinel_counterexample :
    jsonWinner ((parseLog c8Stream).getD 0 emptyHand) = none ∧
    jsonWinningAmount ((parseLog c8Stream).getD 0 emptyHand) = some 0 ∧
    ¬ jsonWinningAmount ((parseLog c8Stream).getD 0 emptyHand) = none ∧
    ((parseLog c8Stream).getD 0 emptyHand).pot_size = 0 := by decide

theorem mem_modifyCurrent_store (st : ParserState) (f : PokerHand → PokerHand)
    (h : PokerHand) (hm : h ∈ (modifyCurrent st f).store) :
    h ∈ st.store ∨ ∃ h0, h = f h0 ∧ (h0 ∈ st.store ∨ h0 = emptyHand) := by
  unfold modifyCurrent at hm
  cases hc : st.current with
  | none =>
    rw [hc] at hm
    exact Or.inl hm
  | some i =>
    rw [hc] at hm
    rcases List.mem_or_eq_of_mem_set hm with hmem | heq
    · exact Or.inl hmem
    · right
      refine ⟨st.store.getD i emptyHand, heq, ?_⟩
      by_cases hlt : i < st.store.length
      · left
        rw [List.getD_eq_getElem?_getD, List.getElem?_eq_getElem hlt]
        exact List.get_mem st.store i hlt
      · right
        rw [List.getD_eq_getElem?_getD, List.getElem?_eq_none (Nat.le_of_not_lt hlt)]
        rfl

theorem appendAction_fields (stage : String) (a : PlayerAction) (h : PokerHand) :
    (appendAction stage a h).winner = h.winner ∧
    (appendAction stage a h).winning_amount = h.winning_amount ∧
    (appendAction stage a h).pot_size = h.pot_size := by
  unfold appendAction
  split_ifs <;> exact ⟨rfl, rfl, rfl⟩

theorem matchedAction_kind (t : ActionText) (k : String) (amt : Option Nat)
    (h : matchedAction t = some (k, amt)) : k = verbKind t.verb := by
  unfold matchedAction at h
  by_cases hv : verbNeedsAmount t.verb
  · rw [if_pos hv] at h
    cases ham : t.amount with
    | none =>
      rw [ham] at h
      exact Option.noConfusion h
    | some n =>
      rw [ham] at h
      exact (congrArg Prod.fst (Option.some.inj h)).symm
  · rw [if_neg hv] at h
    exact (congrArg Prod.fst (Option.some.inj h)).symm

theorem verbKind_ne_win (v : Verb) (hv : ¬ v = .collected) : ¬ verbKind v = "win" := by
  cases v <;> simp_all [verbKind]

theorem store_no_win_step (st : ParserState) (e : Entry) (ts : String)
    (hnc : isCollectEntry e = false)
    (hinv : ∀ h ∈ st.store,
      h.winner = none ∧ h.winning_amount = 0 ∧ h.pot_size = 0) :
    ∀ h ∈ (processEntry st e ts).store,
      h.winner = none ∧ h.winning_amount = 0 ∧ h.pot_size = 0 := by
  have hempty : emptyHand.winner = none ∧ emptyHand.winning_amount = 0 ∧
      emptyHand.pot_size = 0 := ⟨rfl, rfl, rfl⟩
  have hmod : ∀ (f : PokerHand → PokerHand) (h : PokerHand),
      h ∈ (modifyCurrent st f).store →
      (∀ h0, (f h0).winner = h0.winner ∧ (f h0).winning_amount = h0.winning_amount ∧
        (f h0).pot_size = h0.pot_size) →
      h.winner = none ∧ h.winning_amount = 0 ∧ h.pot_size = 0 := by
    intro f h hm hf
    rcases mem_modifyCurrent_store st f h hm with hmem | ⟨h0, rfl, hh0⟩
    · exact hinv h hmem
    · have h0f : h0.winner = none ∧ h0.winning_amount = 0 ∧ h0.pot_size = 0 := by
        rcases hh0 with hh0 | rfl
        · exact hinv h0 hh0
        · exact hempty
      exact ⟨(hf h0).1.trans h0f.1, (hf h0).2.1.trans h0f.2.1, (hf h0).2.2.trans h0f.2.2⟩
  intro h hm
  cases e with
  | handStart info =>
    cases info with
    | some d =>
      obtain ⟨num, hid, dealer⟩ := d
      have hstore : (processEntry st (.handStart (some (num, hid, dealer))) ts).store =
          st.store ++ [newHand num hid dealer ts] := by
        unfold processEntry
        cases st.current <;> rfl
      rw [hstore] at hm
      rcases List.mem_append.mp hm with hmem | hmem
      · exact hinv h hmem
      · rcases List.mem_singleton.mp hmem with rfl
        exact ⟨rfl, rfl, rfl⟩
    | none =>
      have hstore : (processEntry st (.handStart none) ts).store = st.store := by
        unfold processEntry
        cases st.current <;> rfl
      rw [hstore] at hm
      exact hinv h hm
  | handEnd => exact hinv h hm
  | stacksEntry sts =>
    exact hmod _ h hm (fun h0 => ⟨rfl, rfl, rfl⟩)
  | flopEntry cards =>
    cases hc : st.current with
    | none =>
      simp only [processEntry, hc] at hm
      exact hinv h hm
    | some i =>
      simp only [processEntry, hc] at hm
      exact hmod _ h hm (fun h0 => ⟨rfl, rfl, rfl⟩)
  | turnEntry card =>
    cases hc : st.current with
    | none =>
      simp only [processEntry, hc] at hm
      exact hinv h hm
    | some i =>
      simp only [processEntry, hc] at hm
      exact hmod _ h hm (fun h0 => ⟨rfl, rfl, rfl⟩)
  | riverEntry card =>
    cases hc : st.current with
    | none =>
      simp only [processEntry, hc] at hm
      exact hinv h hm
    | some i =>
      simp only [processEntry, hc] at hm
      exact hmod _ h hm (fun h0 => ⟨rfl, rfl, rfl⟩)
  | showsEntry info =>
    cases hc : st.current with
    | none =>
      simp only [processEntry, hc] at hm
      exact hinv h hm
    | some i =>
      cases info with
      | some d =>
        obtain ⟨p, cards⟩ := d
        simp only [processEntry, hc] at hm
        exact hmod _ h hm (fun h0 => ⟨rfl, rfl, rfl⟩)
      | none =>
        simp only [processEntry, hc] at hm
        exact hinv h hm
  | actionEntry t =>
    have hvne : ¬ t.verb = .collected := by
      simp only [isCollectEntry] at hnc
      intro hx
      rw [hx] at hnc
      simp at hnc
    cases hc : st.current with
    | none =>
      simp only [processEntry, hc] at hm
      exact hinv h hm
    | some i =>
      cases hma : matchedAction t with
      | none =>
        simp only [processEntry, hc, hma] at hm
        exact hinv h hm
      | some ka =>
        obtain ⟨kind, amt⟩ := ka
        have hkind : ¬ kind = "win" := by
          rw [matchedAction_kind t kind amt hma]
          exact verbKind_ne_win t.verb hvne
        by_cases hret : kind = "return"
        · simp only [processEntry, hc, hma, if_neg hkind, if_pos hret] at hm
          exact hinv h hm
        · simp only [processEntry, hc, hma, if_neg hkind, if_neg hret] at hm
          exact hmod _ h hm (fun h0 => appendAction_fields st.currentStage _ h0)
  | unrecognized => exact hinv h hm

theorem store_no_win_entries (es : List (Entry × String)) :
    ∀ st : ParserState, (∀ q ∈ es, isCollectEntry q.1 = false) →
      (∀ h ∈ st.store, h.winner = none ∧ h.winning_amount = 0 ∧ h.pot_size = 0) →
      ∀ h ∈ (processEntries st es).store,
        h.winner = none ∧ h.winning_amount = 0 ∧ h.pot_size = 0 := by
  induction es with
  | nil => intro st _ hinv; exact hinv
  | cons q es ih =>
    intro st hes hinv
    exact ih (processEntry st q.1 q.2)
      (fun r hr => hes r (List.mem_cons_of_mem q hr))
      (store_no_win_step st q.1 q.2 (hes q (List.mem_cons_self q es)) hinv)

theorem sealFinal_store (st : ParserState) : (sealFinal st).store = st.store := by
  unfold sealFinal
  cases st.current <;> rfl

theorem getHand_no_win (st : ParserState)
    (hinv : ∀ h ∈ st.store, h.winner = none ∧ h.winning_amount = 0 ∧ h.pot_size = 0)
    (i : Nat) :
    (getHand st i).winner = none ∧ (getHand st i).winning_amount = 0 ∧
      (getHand st i).pot_size = 0 := by
  unfold getHand
  by_cases hlt : i < st.store.length
  · rw [List.getD_eq_getElem?_getD, List.getElem?_eq_getElem hlt]
    exact hinv _ (List.get_mem st.store i hlt)
  · rw [List.getD_eq_getElem?_getD, List.getElem?_eq_none (Nat.le_of_not_lt hlt)]
    exact ⟨rfl, rfl, rfl⟩

/-- Claim C8 (corrected): for every Hand assembled from a stream with no
pot-collection entry, the exported winner is absent (`null`), while
`winning_amount` — contrary to the claim — is exported as the sentinel
number `0` (the dataclass default), exactly like `pot_size`. -/
theorem c8_no_collection_defaults (es : List (Entry × String))
    (hes : ∀ q ∈ es, isCollectEntry q.1 = false) :
    ∀ h ∈ parseLog es,
      jsonWinner h = none ∧ jsonWinningAmount h = some 0 ∧ h.pot_size = 0 := by
  intro h hm
  unfold parseLog at hm
  rcases List.mem_map.mp hm with ⟨i, _, rfl⟩
  have hinv : ∀ h2 ∈ (processEntries {} es).store,
      h2.winner = none ∧ h2.winning_amount = 0 ∧ h2.pot_size = 0 :=
    store_no_win_entries es {} hes (fun h2 hm2 => absurd hm2 (List.not_mem_nil h2))
  have hinv2 : ∀ h2 ∈ (sealFinal (processEntries {} es)).store,
      h2.winner = none ∧ h2.winning_amount = 0 ∧ h2.pot_size = 0 := by
    rw [sealFinal_store]
    exact hinv
  have := getHand_no_win (sealFinal (processEntries {} es)) hinv2 i
  exact ⟨this.1, by rw [jsonWinningAmount, this.2.1], this.2.2⟩

/-- Witness for C8's corrected statement at the concrete no-collection
stream. -/
theorem c8_no_collection_defaults_witness :
    jsonWinner ((parseLog c8Stream).getD 0 emptyHand) = none ∧
    jsonWinningAmount ((parseLog c8Stream).getD 0 emptyHand) = some 0 ∧
    ((parseLog c8Stream).getD 0 emptyHand).pot_size = 0 :=
  c8_no_collection_defaults c8Stream (by decide) _ (by decide)

theorem processEntry_current (st : ParserState) (e : Entry) (ts : String)
    (hns : isHandStartEntry e = false) :
    (processEntry st e ts).current = st.current := by
  cases e with
  | handStart info => simp [isHandStartEntry] at hns
  | handEnd => rfl
  | stacksEntry sts =>
    cases hc : st.current <;> simp [processEntry, modifyCurrent, hc]
  | flopEntry cards =>
    cases hc : st.current <;> simp [processEntry, modifyCurrent, hc]
  | turnEntry card =>
    cases hc : st.current <;> simp [processEntry, modifyCurrent, hc]
  | riverEntry card =>
    cases hc : st.current <;> simp [processEntry, modifyCurrent, hc]
  | showsEntry info =>
    cases hc : st.current with
    | none => simp [processEntry, hc]
    | some i =>
      cases info with
      | some d => simp [processEntry, hc, modifyCurrent]
      | none => simp [processEntry, hc]
  | actionEntry t =>
    cases hc : st.current with
    | none => simp [processEntry, hc]
    | some i =>
      cases hma : matchedAction t with
      | none => simp [processEntry, hc, hma]
      | some ka =>
        obtain ⟨kind, amt⟩ := ka
        simp only [processEntry, hc, hma]
        split_ifs <;> simp [modifyCurrent, hc]
  | unrecognized => rfl

theorem processEntry_current_isSome (st : ParserState) (e : Entry) (ts : String)
    (h : st.current.isSome = true) :
    (processEntry st e ts).current.isSome = true := by
  cases e with
  | handStart info =>
    cases info with
    | some d =>
      obtain ⟨num, hid, dealer⟩ := d
      cases hc : st.current <;> simp [processEntry, hc]
    | none =>
      cases hc : st.current with
      | none => rw [hc] at h; simp at h
      | some i => simp [processEntry, hc]
  | handEnd => exact h
  | stacksEntry sts => rw [processEntry_current st (.stacksEntry sts) ts rfl]; exact h
  | flopEntry cards => rw [processEntry_current st (.flopEntry cards) ts rfl]; exact h
  | turnEntry card => rw [processEntry_current st (.turnEntry card) ts rfl]; exact h
  | riverEntry card => rw [processEntry_current st (.riverEntry card) ts rfl]; exact h
  | showsEntry info => rw [processEntry_current st (.showsEntry info) ts rfl]; exact h
  | actionEntry t => rw [processEntry_current st (.actionEntry t) ts rfl]; exact h
  | unrecognized => exact h

theorem wf_modifyCurrent (st : ParserState) (f : PokerHand → PokerHand)
    (hwf : wfState st = true) : wfState (modifyCurrent st f) = true := by
  cases hc : st.current with
  | none =>
    unfold modifyCurrent
    rw [hc]
    exact hwf
  | some i =>
    unfold modifyCurrent
    rw [hc]
    unfold wfState at hwf ⊢
    rw [hc] at hwf
    simp only [hc, List.length_set]
    simpa using hwf

theorem processEntry_wf (st : ParserState) (e : Entry) (ts : String)
    (hwf : wfState st = true) : wfState (processEntry st e ts) = true := by
  cases e with
  | handStart info =>
    cases info with
    | some d =>
      obtain ⟨num, hid, dealer⟩ := d
      cases hc : st.current <;>
        simp [processEntry, hc, wfState, List.length_append]
    | none =>
      cases hc : st.current with
      | none => simpa [processEntry, hc] using hwf
      | some i =>
        simp only [processEntry, hc]
        unfold wfState at hwf ⊢
        rw [hc] at hwf
        simpa using hwf
  | handEnd => exact hwf
  | stacksEntry sts => exact wf_modifyCurrent st _ hwf
  | flopEntry cards =>
    cases hc : st.current with
    | none => simpa [processEntry, hc] using hwf
    | some i =>
      simp only [processEntry, hc]
      have h2 := wf_modifyCurrent st (fun h => { h with flop_cards := some cards }) hwf
      unfold wfState at h2 ⊢
      exact h2
  | turnEntry card =>
    cases hc : st.current with
    | none => simpa [processEntry, hc] using hwf
    | some i =>
      simp only [processEntry, hc]
      have h2 := wf_modifyCurrent st (fun h => { h with turn_card := card }) hwf
      unfold wfState at h2 ⊢
      exact h2
  | riverEntry card =>
    cases hc : st.current with
    | none => simpa [processEntry, hc] using hwf
    | some i =>
      simp only [processEntry, hc]
      have h2 := wf_modifyCurrent st (fun h => { h with river_card := card }) hwf
      unfold wfState at h2 ⊢
      exact h2
  | showsEntry info =>
    cases hc : st.current with
    | none => simpa [processEntry, hc] using hwf
    | some i =>
      cases info with
      | some d =>
        obtain ⟨p, cards⟩ := d
        simp only [processEntry, hc]
        exact wf_modifyCurrent st _ hwf
      | none => simpa [processEntry, hc] using hwf
  | actionEntry t =>
    cases hc : st.current with
    | none => simpa [processEntry, hc] using hwf
    | some i =>
      cases hma : matchedAction t with
      | none => simpa [processEntry, hc, hma] using hwf
      | some ka =>
        obtain ⟨kind, amt⟩ := ka
        simp only [processEntry, hc, hma]
        split_ifs
        · exact wf_modifyCurrent st _ hwf
        · exact hwf
        · exact wf_modifyCurrent st _ hwf
  | unrecognized => exact hwf

theorem getHand_modifyCurrent (st : ParserState) (f : PokerHand → PokerHand)
    (i : Nat) (hc : st.current = some i) (hlt : i < st.store.length) :
    getHand (modifyCurrent st f) i = f (getHand st i) := by
  unfold modifyCurrent getHand
  rw [hc]
  rw [List.getD_eq_getElem?_getD, List.getElem?_set_self hlt]
  rfl

theorem wf_lt (st : ParserState) (i : Nat) (hc : st.current = some i)
    (hwf : wfState st = true) : i < st.store.length := by
  unfold wfState at hwf
  rw [hc] at hwf
  exact of_decide_eq_true hwf

theorem getHand_fields_step (st : ParserState) (e : Entry) (ts : String) (i : Nat)
    (hc : st.current = some i) (hwf : wfState st = true)
    (hns : isHandStartEntry e = false) (hnc : isCollectEntry e = false) :
    (getHand (processEntry st e ts) i).winner = (getHand st i).winner ∧
    (getHand (processEntry st e ts) i).winning_amount = (getHand st i).winning_amount ∧
    (getHand (processEntry st e ts) i).pot_size = (getHand st i).pot_size := by
  have hlt : i < st.store.length := wf_lt st i hc hwf
  have hmod : ∀ (f : PokerHand → PokerHand),
      ((∀ h0, (f h0).winner = h0.winner ∧ (f h0).winning_amount = h0.winning_amount ∧
        (f h0).pot_size = h0.pot_size)) →
      (getHand (modifyCurrent st f) i).winner = (getHand st i).winner ∧
      (getHand (modifyCurrent st f) i).winning_amount = (getHand st i).winning_amount ∧
      (getHand (modifyCurrent st f) i).pot_size = (getHand st i).pot_size := by
    intro f hf
    rw [getHand_modifyCurrent st f i hc hlt]
    exact hf (getHand st i)
  cases e with
  | handStart info => simp [isHandStartEntry] at hns
  | handEnd => exact ⟨rfl, rfl, rfl⟩
  | stacksEntry sts =>
    exact hmod (fun h0 =>
      { h0 with player_stacks := sts, players := sts.map (fun q => q.1) })
      (fun h0 => ⟨rfl, rfl, rfl⟩)
  | flopEntry cards =>
    simp only [processEntry, hc]
    exact hmod (fun h0 => { h0 with flop_cards := some cards })
      (fun h0 => ⟨rfl, rfl, rfl⟩)
  | turnEntry card =>
    simp only [processEntry, hc]
    exact hmod (fun h0 => { h0 with turn_card := card })
      (fun h0 => ⟨rfl, rfl, rfl⟩)
  | riverEntry card =>
    simp only [processEntry, hc]
    exact hmod (fun h0 => { h0 with river_card := card })
      (fun h0 => ⟨rfl, rfl, rfl⟩)
  | showsEntry info =>
    cases info with
    | some d =>
      obtain ⟨p, cards⟩ := d
      simp only [processEntry, hc]
      exact hmod (fun h0 =>
        { h0 with showdown := h0.showdown ++ [{ player := p, hole_cards := cards }] })
        (fun h0 => ⟨rfl, rfl, rfl⟩)
    | none =>
      simp [processEntry, hc]
  | actionEntry t =>
    have hvne : ¬ t.verb = .collected := by
      simp only [isCollectEntry] at hnc
      intro hx
      rw [hx] at hnc
      simp at hnc
    cases hma : matchedAction t with
    | none =>
      simp [processEntry, hc, hma]
    | some ka =>
      obtain ⟨kind, amt⟩ := ka
      have hkind : ¬ kind = "win" := by
        rw [matchedAction_kind t kind amt hma]
        exact verbKind_ne_win t.verb hvne
      by_cases hret : kind = "return"
      · simp [processEntry, hc, hma, if_neg hkind, if_pos hret]
      · simp only [processEntry, hc, hma, if_neg hkind, if_neg hret]
        exact hmod (appendAction st.currentStage
          { player := t.player, action := kind, amount := amt,
            timestamp := some ts, stage := st.currentStage })
          (fun h0 => appendAction_fields st.currentStage _ h0)
  | unrecognized => exact ⟨rfl, rfl, rfl⟩

theorem collect_step (st : ParserState) (p ts : String) (n : Nat) (i : Nat)
    (hc : st.current = some i) (hwf : wfState st = true) :
    (getHand (processEntry st
        (.actionEntry { player := p, verb := .collected, amount := some n }) ts) i).winner =
      some p ∧
    (getHand (processEntry st
        (.actionEntry { player := p, verb := .collected, amount := some n }) ts) i).winning_amount =
      n ∧
    (getHand (processEntry st
        (.actionEntry { player := p, verb := .collected, amount := some n }) ts) i).pot_size =
      n := by
  have hlt : i < st.store.length := wf_lt st i hc hwf
  have hma : matchedAction { player := p, verb := .collected, amount := some n } =
      some ("win", some n) := rfl
  simp only [processEntry, hc, hma, if_true]
  rw [getHand_modifyCurrent st _ i hc hlt]
  exact ⟨rfl, rfl, rfl⟩

theorem post_preserve (post : List (Entry × String)) :
    ∀ (st : ParserState) (i : Nat), st.current = some i → wfState st = true →
      (∀ q ∈ post, isCollectEntry q.1 = false ∧ isHandStartEntry q.1 = false) →
      (processEntries st post).current = some i ∧
      wfState (processEntries st post) = true ∧
      (getHand (processEntries st post) i).winner = (getHand st i).winner ∧
      (getHand (processEntries st post) i).winning_amount =
        (getHand st i).winning_amount ∧
      (getHand (processEntries st post) i).pot_size = (getHand st i).pot_size := by
  induction post with
  | nil => intro st i hc hwf _; exact ⟨hc, hwf, rfl, rfl, rfl⟩
  | cons q post ih =>
    intro st i hc hwf hall
    have hq := hall q (List.mem_cons_self q post)
    have hc2 : (processEntry st q.1 q.2).current = some i := by
      rw [processEntry_current st q.1 q.2 hq.2]
      exact hc
    have hwf2 : wfState (processEntry st q.1 q.2) = true :=
      processEntry_wf st q.1 q.2 hwf
    have hstep := getHand_fields_step st q.1 q.2 i hc hwf hq.2 hq.1
    have htail := ih (processEntry st q.1 q.2) i hc2 hwf2
      (fun r hr => hall r (List.mem_cons_of_mem q hr))
    exact ⟨htail.1, htail.2.1, htail.2.2.1.trans hstep.1,
      htail.2.2.2.1.trans hstep.2.1, htail.2.2.2.2.trans hstep.2.2⟩

theorem processEntries_current_isSome (es : List (Entry × String)) :
    ∀ st : ParserState, st.current.isSome = true →
      (processEntries st es).current.isSome = true := by
  induction es with
  | nil => intro st h; exact h
  | cons q es ih =>
    intro st h
    exact ih (processEntry st q.1 q.2) (processEntry_current_isSome st q.1 q.2 h)

theorem processEntries_wf (es : List (Entry × String)) :
    ∀ st : ParserState, wfState st = true →
      wfState (processEntries st es) = true := by
  induction es with
  | nil => intro st h; exact h
  | cons q es ih =>
    intro st h
    exact ih (processEntry st q.1 q.2) (processEntry_wf st q.1 q.2 h)

/-- Claim C10 (confirmed): when several pot-collection entries occur while a
hand is being assembled, the assembled Hand records only the last one: the
collect entry sets winner / winning_amount / pot_size by plain assignment,
and every later entry that is neither a collection nor a hand start leaves
those three fields of the current hand untouched. -/
theorem c10_last_collection_wins (st : ParserState) (pre post : List (Entry × String))
    (p ts : String) (n : Nat)
    (hcur : st.current.isSome = true) (hwf : wfState st = true)
    (hpost : ∀ q ∈ post, isCollectEntry q.1 = false ∧ isHandStartEntry q.1 = false) :
    ∃ i, (processEntries st (pre ++
        (Entry.actionEntry { player := p, verb := .collected, amount := some n }, ts)
          :: post)).current = some i ∧
      (getHand (processEntries st (pre ++
        (Entry.actionEntry { player := p, verb := .collected, amount := some n }, ts)
          :: post)) i).winner = some p ∧
      (getHand (processEntries st (pre ++
        (Entry.actionEntry { player := p, verb := .collected, amount := some n }, ts)
          :: post)) i).winning_amount = n ∧
      (getHand (processEntries st (pre ++
        (Entry.actionEntry { player := p, verb := .collected, amount := some n }, ts)
          :: post)) i).pot_size = n := by
  rw [show processEntries st (pre ++
      (Entry.actionEntry { player := p, verb := .collected, amount := some n }, ts)
        :: post) =
    processEntries (processEntry (processEntries st pre)
      (Entry.actionEntry { player := p, verb := .collected, amount := some n }) ts)
      post from by
    unfold processEntries
    rw [List.foldl_append]
    rfl]
  have hsome1 : (processEntries st pre).current.isSome = true :=
    processEntries_current_isSome pre st hcur
  obtain ⟨i, hci⟩ := Option.isSome_iff_exists.mp hsome1
  have hwf1 : wfState (processEntries st pre) = true := processEntries_wf pre st hwf
  have hcol := collect_step (processEntries st pre) p ts n i hci hwf1
  have hc2 : (processEntry (processEntries st pre)
      (Entry.actionEntry { player := p, verb := .collected, amount := some n }) ts).current =
      some i := by
    rw [processEntry_current (processEntries st pre)
      (Entry.actionEntry { player := p, verb := .collected, amount := some n }) ts rfl]
    exact hci
  have hwf2 := processEntry_wf (processEntries st pre)
    (Entry.actionEntry { player := p, verb := .collected, amount := some n }) ts hwf1
  have hpp := post_preserve post _ i hc2 hwf2 hpost
  exact ⟨i, hpp.1, hpp.2.2.1.trans hcol.1, hpp.2.2.2.1.trans hcol.2.1,
    hpp.2.2.2.2.trans hcol.2.2⟩

/-- Witness for C10: starting from the one-hand state, an earlier collection
of 40 by `B` followed by a later collection of 120 by `A` and a fold leaves
winner `A` and amount/pot 120. -/
theorem c10_last_collection_wins_witness :
    ∃ i, (processEntries stOneHand
        ([(Entry.actionEntry { player := "B", verb := .collected, amount := some 40 }, "t2")] ++
          (Entry.actionEntry { player := "A", verb := .collected, amount := some 120 }, "t3")
            :: [(Entry.actionEntry { player := "B", verb := .foldsV, amount := none }, "t4")])).current =
        some i ∧
      (getHand (processEntries stOneHand
        ([(Entry.actionEntry { player := "B", verb := .collected, amount := some 40 }, "t2")] ++
          (Entry.actionEntry { player := "A", verb := .collected, amount := some 120 }, "t3")
            :: [(Entry.actionEntry { player := "B", verb := .foldsV, amount := none }, "t4")])) i).winner =
        some "A" ∧
      (getHand (processEntries stOneHand
        ([(Entry.actionEntry { player := "B", verb := .collected, amount := some 40 }, "t2")] ++
          (Entry.actionEntry { player := "A", verb := .collected, amount := some 120 }, "t3")
            :: [(Entry.actionEntry { player := "B", verb := .foldsV, amount := none }, "t4")])) i).winning_amount =
        120 ∧
      (getHand (processEntries stOneHand
        ([(Entry.actionEntry { player := "B", verb := .collected, amount := some 40 }, "t2")] ++
          (Entry.actionEntry { player := "A", verb := .collected, amount := some 120 }, "t3")
            :: [(Entry.actionEntry { player := "B", verb := .foldsV, amount := none }, "t4")])) i).pot_size =
        120 :=
  c10_last_collection_wins stOneHand
    [(Entry.actionEntry { player := "B", verb := .collected, amount := some 40 }, "t2")]
    [(Entry.actionEntry { player := "B", verb := .foldsV, amount := none }, "t4")]
    "A" "t3" 120 (by decide) (by decide) (by decide)

theorem actionSymbol_ne_empty (k : String) (hk : ¬ k = "blind") :
    ¬ actionSymbol k = "" := by
  intro hcon
  unfold actionSymbol at hcon
  split_ifs at hcon <;> simp_all

theorem string_length_pos_of_ne_empty (s : String) (h : ¬ s = "") : 0 < s.length := by
  cases s with
  | mk data =>
    cases data with
    | nil => exact absurd rfl h
    | cons c cs =>
      simp [String.length]

theorem join_foldl_length (xs : List String) :
    ∀ acc : String, (xs.foldl (fun r s => r ++ s) acc).length =
      acc.length + (xs.map String.length).sum := by
  induction xs with
  | nil => intro acc; simp
  | cons x xs ih =>
    intro acc
    simp only [List.foldl_cons, List.map_cons, List.sum_cons]
    rw [ih (acc ++ x), String.length_append]
    omega

theorem join_length (xs : List String) :
    (String.join xs).length = (xs.map String.length).sum := by
  have := join_foldl_length xs ""
  simpa [String.join] using this

theorem specSegOf_eq_empty_iff (l : List PlayerAction) (p : String) :
    (specSegOf l p = "") ↔
      (l.filter (fun a => a.player == p && a.action != "blind")) = [] := by
  constructor
  · intro hs
    cases hpas : l.filter (fun a => a.player == p && a.action != "blind") with
    | nil => rfl
    | cons x rest =>
      exfalso
      have hx : x ∈ l.filter (fun a => a.player == p && a.action != "blind") := by
        rw [hpas]
        exact List.mem_cons_self x rest
      have hxb : ¬ x.action = "blind" := by
        have hmem := (List.mem_filter.mp hx).2
        have hb := (Bool.and_eq_true _ _).mp hmem
        exact bne_iff_ne.mp hb.2
      have hsym : ¬ actionSymbol x.action = "" := actionSymbol_ne_empty x.action hxb
      have hpos : 0 < (actionSymbol x.action).length :=
        string_length_pos_of_ne_empty _ hsym
      have heq : specSegOf l p =
          String.join ((x :: rest).map (fun a => actionSymbol a.action)) := by
        unfold specSegOf
        rw [hpas]
      have hlen : (specSegOf l p).length =
          (((x :: rest).map (fun a => actionSymbol a.action)).map String.length).sum := by
        rw [heq, join_length]
      rw [hs] at hlen
      simp only [List.map_cons, List.sum_cons] at hlen
      have hzero : ("" : String).length = 0 := rfl
      rw [hzero] at hlen
      omega
  · intro hnil
    unfold specSegOf
    rw [hnil]
    rfl

theorem segOf_eq (l : List PlayerAction) (p : String) :
    segOf l p = if specSegOf l p = "" then none else some (specSegOf l p) := by
  by_cases hpas : l.filter (fun a => a.player == p && a.action != "blind") = []
  · have h1 : specSegOf l p = "" := (specSegOf_eq_empty_iff l p).mpr hpas
    simp [segOf, hpas, h1]
  · have h1 : ¬ specSegOf l p = "" := fun hc => hpas ((specSegOf_eq_empty_iff l p).mp hc)
    rw [if_neg h1]
    have hall : ∀ s ∈ (l.filter (fun a => a.player == p && a.action != "blind")).map
        (fun a => actionSymbol a.action), (s != "") = true := by
      intro s hsm
      rcases List.mem_map.mp hsm with ⟨a, hal, rfl⟩
      have hmem := (List.mem_filter.mp hal).2
      have hb := (Bool.and_eq_true _ _).mp hmem
      exact bne_iff_ne.mpr (actionSymbol_ne_empty a.action (bne_iff_ne.mp hb.2))
    have hfil := List.filter_eq_self.mpr hall
    have hne1 : ¬ ((l.filter (fun a => a.player == p && a.action != "blind")).isEmpty = true) := by
      rw [List.isEmpty_iff]
      exact hpas
    have hmapne : ¬ (((l.filter (fun a => a.player == p && a.action != "blind")).map
        (fun a => actionSymbol a.action)).isEmpty = true) := by
      rw [List.isEmpty_iff, List.map_eq_nil_iff]
      exact hpas
    simp only [segOf]
    rw [if_neg hne1, hfil, if_neg hmapne]
    rfl

theorem filterMap_if_empty (g : List PlayerAction → String) :
    ∀ L : List (List PlayerAction),
      L.filterMap (fun x => if g x = "" then none else some (g x)) =
        (L.map g).filter (fun s => s != "") := by
  intro L
  induction L with
  | nil => rfl
  | cons x L ih =>
    by_cases hx : g x = ""
    · simp [List.filterMap_cons, List.map_cons, List.filter_cons, hx, ih]
    · simp [List.filterMap_cons, List.map_cons, List.filter_cons, hx, ih]

theorem playerLine_eq_spec (h : PokerHand) (p : String) :
    playerLine h p = specPlayerLine h p := by
  unfold playerLine specPlayerLine
  have hfun : (fun l => segOf l p) =
      (fun l => if specSegOf l p = "" then none else some (specSegOf l p)) := by
    funext l
    exact segOf_eq l p
  rw [hfun, filterMap_if_empty (fun l => specSegOf l p) (stageLists h)]
  by_cases hem : (((stageLists h).map (fun l => specSegOf l p)).filter
      (fun s => s != "")).isEmpty
  · rw [if_pos hem]
    rw [List.isEmpty_iff.mp hem]
    rfl
  · rw [if_neg hem]

/-- Claim C9 counterexample: `P1` appears in `handC9`'s preflop list (as a
blind poster) but the Action-Line Encoder's map has no entry for `P1` at
all — blind-only players are excluded from the `all_players` set, rather
than being given an empty line. -/
theorem c9_blind_only_counterexample :
    appearsInHand handC9 "P1" = true ∧ actionLines handC9 "P1" = none := by decide

/-- Claim C9 (corrected): the Action-Line Encoder's map has an entry exactly
for the players with at least one non-blind action in some stage (a
blind-only player gets no entry, not an empty line), and each present
player's line is their non-empty stage segments — one symbol per non-blind
action, in action order — joined with `/` in stage order with empty stages
omitted (`specPlayerLine`, the spec's formulation of the line). -/
theorem c9_action_lines (h : PokerHand) (p : String) :
    ((actionLines h p).isSome = true ↔ hasNonBlind h p = true) ∧
    (∀ s, actionLines h p = some s → s = specPlayerLine h p) := by
  constructor
  · unfold actionLines
    by_cases hnb : hasNonBlind h p
    · simp [hnb]
    · simp [hnb]
  · intro s hs
    unfold actionLines at hs
    by_cases hnb : hasNonBlind h p
    · rw [if_pos hnb] at hs
      rw [← Option.some.inj hs]
      exact playerLine_eq_spec h p
    · rw [if_neg hnb] at hs
      exact Option.noConfusion hs

/-- Witness for C9's corrected statement: in `handW9`, `P2` has an entry and
its line `C/XF` (call preflop, check-fold on the flop, turn and river
omitted) matches the spec's formulation. -/
theorem c9_action_lines_witness :
    (actionLines handW9 "P2").isSome = true ∧ "C/XF" = specPlayerLine handW9 "P2" :=
  ⟨((c9_action_lines handW9 "P2").1).mpr (by decide),
    (c9_action_lines handW9 "P2").2 "C/XF" (by decide)⟩
